import Mathlib

set_option maxRecDepth 8000

/-
Shallow embedding of src/roadlocalize/localize.py (RoadLocalize i18n toolkit).
Machine strings are modeled as Lean String / List Char; Python ints as Int/Nat.
Non-integral numeric inputs (float / Decimal) are modeled as exact scaled
decimals (units / 10 ^ scale); for every value appearing in the specification
-/

namespace RoadLocalize

/-- Digit character for a residue below ten; every result is an ASCII digit. -/
def toDigitChar : Nat → Char
  | 0 => '0' | 1 => '1' | 2 => '2' | 3 => '3' | 4 => '4'
  | 5 => '5' | 6 => '6' | 7 => '7' | 8 => '8' | _ => '9'

/-- Fueled decimal rendering of a natural number, most significant digit first.
The fuel never runs out when it is at least the number itself. -/
def natDigitsAux : Nat → Nat → List Char
  | 0, n => [toDigitChar (n % 10)]
  | fuel+1, n => if n < 10 then [toDigitChar n] else natDigitsAux fuel (n / 10) ++ [toDigitChar (n % 10)]

/-- Decimal digit string of a natural number (Python str for non-negative ints). -/
def natDigits (n : Nat) : List Char := natDigitsAux n n

/-- Rendering of a Python int via str(), sign included. -/
def intStr (n : Int) : String := (if n < 0 then "-" else "") ++ String.mk (natDigits n.natAbs)

/-- Chunks of three characters taken from the front of a list. -/
def chunk3 : List Char → List (List Char)
  | [] => []
  | [a] => [[a]]
  | [a, b] => [[a, b]]
  | a :: b :: c :: rest => [a, b, c] :: chunk3 rest

/-- Join chunk lists with a comma between adjacent chunks. -/
def joinGroups : List (List Char) → List Char
  | [] => []
  | [g] => g
  | g :: g2 :: rest => g ++ ',' :: joinGroups (g2 :: rest)

/-- Digits of n grouped in threes from the right and joined with commas,
exactly the integer part of CPython's format spec with a comma separator. -/
def groupedDigits (n : Nat) : List Char :=
  joinGroups (((chunk3 (natDigits n).reverse).map List.reverse).reverse)

/-- Python f-string rendering of an int with comma grouping. -/
def pythonFormatInt (v : Int) : String :=
  (if v < 0 then "-" else "") ++ String.mk (groupedDigits v.natAbs)

/-- Round num / den to the nearest integer, ties to even (Decimal HALF_EVEN). -/
def roundHalfEvenNat (num den : Nat) : Nat :=
  let q := num / den
  let r := num % den
  if 2 * r < den then q
  else if den < 2 * r then q + 1
  else if q % 2 = 0 then q else q + 1

/-- Zero-pad a digit list on the left to the requested width. -/
def padLeftZeros (width : Nat) (ds : List Char) : List Char :=
  List.replicate (width - ds.length) '0' ++ ds

/-- Python fixed-point formatting with comma grouping: the value units / 10 ^ scale
rendered to the requested number of decimals, grouping the integer part in
threes with commas and keeping a dot as radix point (locale substitution
happens afterwards, as in the source). -/
def formatFixedStr (units : Int) (scale decimals : Nat) : String :=
  let mag := roundHalfEvenNat (units.natAbs * 10 ^ decimals) (10 ^ scale)
  let ip := mag / 10 ^ decimals
  let fp := mag % 10 ^ decimals
  (if units < 0 then "-" else "") ++ String.mk (groupedDigits ip) ++
    (if decimals = 0 then "" else "." ++ String.mk (padLeftZeros decimals (natDigits fp)))

/-- Fueled replacement of every non-overlapping occurrence of pat by repl,
scanning left to right (Python str.replace). The fuel never runs out when it
is at least the length of the scanned list. -/
def replaceAllAux (pat repl : List Char) : Nat → List Char → List Char
  | 0, s => s
  | _+1, [] => []
  | fuel+1, c :: rest =>
    if pat.isPrefixOf (c :: rest) && !pat.isEmpty then
      repl ++ replaceAllAux pat repl fuel ((c :: rest).drop pat.length)
    else
      c :: replaceAllAux pat repl fuel rest

/-- Replace every non-overlapping occurrence of pat by repl, left to right. -/
def replaceAll (pat repl s : List Char) : List Char := replaceAllAux pat repl s.length s

/-- Python str.replace on Lean strings. -/
def strReplace (s pat repl : String) : String :=
  String.mk (replaceAll pat.toList repl.toList s.toList)

/-- Plural form categories (class PluralForm). -/
inductive PluralForm : Type where
  | zero | one | two | few | many | other
deriving DecidableEq

/-- String value of a plural form (the str payload of the Python enum). -/
def PluralForm.value : PluralForm → String
  | .zero => "zero"
  | .one => "one"
  | .two => "two"
  | .few => "few"
  | .many => "many"
  | .other => "other"

/-- A locale configuration (dataclass Locale). -/
structure Locale where
  code : String
  name : String
  native_name : String
  direction : String
  date_format : String
  time_format : String
  number_decimal : String
  number_thousand : String
  currency_symbol : String
  currency_position : String
  plural_rule : Option (Int → PluralForm)

/-- Locale en-US registered by TranslationStore._setup_default_locales. -/
def enUS : Locale :=
  { code := "en-US", name := "English (US)", native_name := "English",
    direction := "ltr", date_format := "YYYY-MM-DD", time_format := "HH:mm:ss",
    number_decimal := ".", number_thousand := ",", currency_symbol := "$",
    currency_position := "before", plural_rule := none }

/-- Locale en-GB registered by TranslationStore._setup_default_locales. -/
def enGB : Locale :=
  { code := "en-GB", name := "English (UK)", native_name := "English",
    direction := "ltr", date_format := "DD/MM/YYYY", time_format := "HH:mm:ss",
    number_decimal := ".", number_thousand := ",", currency_symbol := "£",
    currency_position := "before", plural_rule := none }

/-- Locale es-ES registered by TranslationStore._setup_default_locales. -/
def esES : Locale :=
  { code := "es-ES", name := "Spanish", native_name := "Español",
    direction := "ltr", date_format := "YYYY-MM-DD", time_format := "HH:mm:ss",
    number_decimal := ",", number_thousand := ".", currency_symbol := "€",
    currency_position := "after", plural_rule := none }

/-- Locale fr-FR registered by TranslationStore._setup_default_locales. -/
def frFR : Locale :=
  { code := "fr-FR", name := "French", native_name := "Français",
    direction := "ltr", date_format := "DD/MM/YYYY", time_format := "HH:mm:ss",
    number_decimal := ",", number_thousand := " ", currency_symbol := "€",
    currency_position := "after", plural_rule := none }

/-- Locale de-DE registered by TranslationStore._setup_default_locales. -/
def deDE : Locale :=
  { code := "de-DE", name := "German", native_name := "Deutsch",
    direction := "ltr", date_format := "DD.MM.YYYY", time_format := "HH:mm:ss",
    number_decimal := ",", number_thousand := ".", currency_symbol := "€",
    currency_position := "after", plural_rule := none }

/-- Locale ja-JP registered by TranslationStore._setup_default_locales. -/
def jaJP : Locale :=
  { code := "ja-JP", name := "Japanese", native_name := "日本語",
    direction := "ltr", date_format := "YYYY年MM月DD日", time_format := "HH:mm:ss",
    number_decimal := ".", number_thousand := ",", currency_symbol := "¥",
    currency_position := "before", plural_rule := none }

/-- Locale ar-SA registered by TranslationStore._setup_default_locales. -/
def arSA : Locale :=
  { code := "ar-SA", name := "Arabic", native_name := "العربية",
    direction := "rtl", date_format := "YYYY-MM-DD", time_format := "HH:mm:ss",
    number_decimal := ".", number_thousand := ",", currency_symbol := "﷼",
    currency_position := "before", plural_rule := none }

/-- A numeric argument to Formatter methods: a Python int, or a float/Decimal
modeled as the exact scaled decimal units / 10 ^ scale. -/
inductive PyNum : Type where
  | int (n : Int)
  | dec (units : Int) (scale : Nat)
deriving DecidableEq

/-- Formatter is bound to one locale (class Formatter). -/
structure Formatter where
  locale : Locale

/-- Formatter.number: int inputs are comma-grouped with no fractional part;
other numeric inputs are fixed-point formatted to the requested decimals, the
radix point is swapped to locale.number_decimal, and the THOUSAND placeholder
dance finally installs locale.number_thousand. -/
def Formatter.number (f : Formatter) (value : PyNum) (decimals : Nat) : String :=
  match value with
  | .int v =>
      strReplace (strReplace (pythonFormatInt v) "," "THOUSAND") "THOUSAND" f.locale.number_thousand
  | .dec units scale =>
      strReplace
        (strReplace (strReplace (formatFixedStr units scale decimals) "," "THOUSAND")
          "." f.locale.number_decimal)
        "THOUSAND" f.locale.number_thousand

/-- Formatter.currency: magnitude via number(value, 2), symbol placed per
locale.currency_position; Python's s or default treats an empty symbol as
absent. -/
def Formatter.currency (f : Formatter) (value : PyNum) (symbol : Option String) : String :=
  let sym := match symbol with
    | some s => if s = "" then f.locale.currency_symbol else s
    | none => f.locale.currency_symbol
  let num := f.number value 2
  if f.locale.currency_position = "before" then sym ++ num else num ++ " " ++ sym

/-- Multiplication by 100 inside Formatter.percentage (exact on this model). -/
def pyNumMul100 : PyNum → PyNum
  | .int n => .int (n * 100)
  | .dec units scale => .dec (units * 100) scale

/-- Formatter.percentage: number(value * 100, decimals) with a trailing sign. -/
def Formatter.percentage (f : Formatter) (value : PyNum) (decimals : Nat) : String :=
  f.number (pyNumMul100 value) decimals ++ "%"

/-- Word character test for the interpolation pattern (ASCII part of regex w). -/
def isWordChar (c : Char) : Bool := c.isAlphanum || c = '_'

/-- Fueled single pass of re.sub over the pattern of two opening braces, one
or more word characters, then two closing braces: a matched placeholder is
replaced by the stringified parameter of that name, or kept verbatim when the
name is absent from params; on a failed match the scan advances one character,
and replacement text is emitted without being rescanned. The fuel never runs
out when it is at least the length of the scanned list. -/
def interpAux (params : List (String × String)) : Nat → List Char → List Char
  | 0, s => s
  | _+1, [] => []
  | _+1, [c] => [c]
  | fuel+1, c1 :: c2 :: rest =>
    if c1 = '{' && c2 = '{' then
      match rest.takeWhile isWordChar, rest.dropWhile isWordChar with
      | w :: ws, '}' :: '}' :: rest2 =>
          (match List.lookup (String.mk (w :: ws)) params with
           | some v => v.toList
           | none => '{' :: '{' :: ((w :: ws) ++ ['}', '}'])) ++ interpAux params fuel rest2
      | _, _ => c1 :: interpAux params fuel (c2 :: rest)
    else c1 :: interpAux params fuel (c2 :: rest)

/-- Translator._interpolate on character lists. -/
def interpolateL (s : List Char) (params : List (String × String)) : List Char :=
  interpAux params s.length s

/-- Translator._interpolate: substitute named parameters into placeholder
tokens; parameter values are modeled by their str() rendering. -/
def interpolate (text : String) (params : List (String × String)) : String :=
  String.mk (interpolateL text.toList params)

/-- A translation entry (dataclass Translation); metadata is omitted since no
observed behavior reads it, and parameter-valued fields are strings. -/
structure Translation where
  key : String
  locale : String
  value : String
  plural_forms : List (String × String)
  context : String
deriving DecidableEq

/-- TranslationStore state: the locale to key to Translation mapping is
modeled as an association list keyed by the (locale, key) pair with the most
recent entry first, and the registered locales as an association list. -/
structure TranslationStore where
  translations : List ((String × String) × Translation)
  locales : List (String × Locale)

/-- TranslationStore.get_translation: absent locale or key gives none. -/
def TranslationStore.get_translation (st : TranslationStore) (locale key : String) :
    Option Translation :=
  List.lookup (locale, key) st.translations

/-- TranslationStore.get_locale. -/
def TranslationStore.get_locale (st : TranslationStore) (code : String) : Option Locale :=
  List.lookup code st.locales

/-- TranslationStore.add_translation: insert or overwrite under the pair
(translation.locale, translation.key); shadowing the association list gives
last-writer-wins lookups. -/
def TranslationStore.add_translation (st : TranslationStore) (t : Translation) :
    TranslationStore :=
  { st with translations := ((t.locale, t.key), t) :: st.translations }

/-- Locale association list built by _setup_default_locales. -/
def defaultLocales : List (String × Locale) :=
  [("en-US", enUS), ("en-GB", enGB), ("es-ES", esES), ("fr-FR", frFR),
   ("de-DE", deDE), ("ja-JP", jaJP), ("ar-SA", arSA)]

/-- Fallback chain table installed by Translator.__init__. -/
def defaultFallbackChain : List (String × List String) :=
  [("en-GB", ["en-US"]), ("es-MX", ["es-ES"]), ("fr-CA", ["fr-FR"]),
   ("pt-BR", ["pt-PT"]), ("zh-TW", ["zh-CN"])]

/-- Translator configuration (class Translator); the store is passed to each
operation explicitly. -/
structure Translator where
  default_locale : String
  fallback_chain : List (String × List String)

/-- Translator instance built by I18n with the stock fallback chain. -/
def mkTranslator : Translator :=
  { default_locale := "en-US", fallback_chain := defaultFallbackChain }

/-- Default English-like plural rule used by Translator._get_plural_form. -/
def defaultPluralRule (count : Int) : PluralForm :=
  if count = 0 then .zero else if count = 1 then .one else .other

/-- Translator._get_plural_form: the locale's plural_rule when the locale is
registered and configured with one, the default rule otherwise. -/
def getPluralForm (st : TranslationStore) (locale : String) (count : Int) : PluralForm :=
  match st.get_locale locale with
  | some lo =>
    match lo.plural_rule with
    | some rule => rule count
    | none => defaultPluralRule count
  | none => defaultPluralRule count

/-- Lookup in an association list with a default. -/
def lookupD (l : List (String × List String)) (k : String) (d : List String) : List String :=
  (List.lookup k l).getD d

/-- Ordered candidate locale list tried by Translator.translate. -/
def candidatesOf (tr : Translator) (locale : String) : List String :=
  locale :: (lookupD tr.fallback_chain locale [] ++ [tr.default_locale])

/-- First candidate locale holding the key, with its translation. -/
def firstHit (st : TranslationStore) (cands : List String) (key : String) :
    Option (String × Translation) :=
  cands.findSome? fun c => (st.get_translation c key).map fun t => (c, t)

/-- Set a key in an association list, overwriting in place (dict assignment). -/
def dictSet : List (String × String) → String → String → List (String × String)
  | [], k, v => [(k, v)]
  | (k0, v0) :: rest, k, v =>
    if k0 = k then (k, v) :: rest else (k0, v0) :: dictSet rest k v

/-- Plural text resolution inside Translator.translate: the selected category,
falling back to the other entry, falling back to the plain value. -/
def pluralText (t : Translation) (pf : PluralForm) : String :=
  ((List.lookup pf.value t.plural_forms).orElse
    fun _ => List.lookup "other" t.plural_forms).getD t.value

/-- Translator.translate. The result is the returned text paired with the
caller's params dictionary as visible after the call: Python's params or
empty-dict idiom replaces a falsy (empty) caller dictionary with a fresh one,
so the in-place count insertion is visible to the caller only when the caller
passed a non-empty dictionary. An absent locale argument, or the falsy empty
string, falls back to the default locale. Missing keys never raise: they
resolve to the supplied default or to the key itself. -/
def Translator.translate (tr : Translator) (st : TranslationStore) (key : String)
    (locale : Option String) (params : List (String × String))
    (count : Option Int) (dflt : Option String) : String × List (String × String) :=
  let loc := match locale with
    | some l => if l = "" then tr.default_locale else l
    | none => tr.default_locale
  match firstHit st (candidatesOf tr loc) key with
  | some (hitLoc, t) =>
    match count with
    | some c =>
      if t.plural_forms ≠ [] then
        let text := pluralText t (getPluralForm st hitLoc c)
        let params2 := dictSet params "count" (intStr c)
        (interpolate text params2, if params.isEmpty then params else params2)
      else (interpolate t.value params, params)
    | none => (interpolate t.value params, params)
  | none => (dflt.getD key, params)

/-- Translator.has_translation: exact literal-locale check, no fallback walk. -/
def Translator.has_translation (tr : Translator) (st : TranslationStore) (key : String)
    (locale : Option String) : Bool :=
  let loc := match locale with
    | some l => if l = "" then tr.default_locale else l
    | none => tr.default_locale
  (st.get_translation loc key).isSome

/-- Store holding only the en-US welcome translation (plus stock locales). -/
def welcomeStore : TranslationStore :=
  { translations := [(("en-US", "welcome"),
      { key := "welcome", locale := "en-US", value := "Welcome to BlackRoad",
        plural_forms := [], context := "" })],
    locales := defaultLocales }

/-- Store holding the en-US items plural bundle (plus stock locales). -/
def itemsStore : TranslationStore :=
  { translations := [(("en-US", "items"),
      { key := "items", locale := "en-US", value := "\x7b\x7bcount\x7d\x7d items",
        plural_forms := [("one", "\x7b\x7bcount\x7d\x7d item"),
                         ("other", "\x7b\x7bcount\x7d\x7d items")],
        context := "" })],
    locales := defaultLocales }

/-- Store with the stock locales and no translations at all. -/
def emptyStore : TranslationStore := { translations := [], locales := defaultLocales }

/-- Nested JSON-like input to TranslationStore.load_json. A scalar carries its
str() rendering; an object is represented as a cons list of fields, objNil
being the empty object and objCons a field followed by the remaining fields. -/
inductive JVal : Type where
  | scalar (render : String)
  | objNil
  | objCons (k : String) (v : JVal) (rest : JVal)
deriving DecidableEq

/-- Membership test for a field name in an object's field list (Python in). -/
def JVal.hasKey : JVal → String → Bool
  | .objCons k _ rest, key => k == key || rest.hasKey key
  | _, _ => false

/-- First field with the given name in an object's field list (dict.get). -/
def JVal.lookup : JVal → String → Option JVal
  | .objCons k v rest, key => if k == key then some v else rest.lookup key
  | _, _ => none

/-- A translation produced by load_json. The value is kept as the raw JSON
payload the Python code assigns (load_json stringifies scalars, while a plural
bundle's other member is stored unconverted); plural_forms is the raw bundle,
objNil when the entry is not pluralized. -/
structure LoadedTranslation where
  key : String
  locale : String
  value : JVal
  plural_forms : JVal
deriving DecidableEq

/-- TranslationStore.load_json: recursive dotted-key flattening. The result is
the returned count paired with the list of translations passed to
add_translation, in call order. A field mapping to an object with a one or
other member becomes one plural bundle; any other object is recursed into with
the prefix extended; a scalar becomes one plain translation. -/
def loadJson (locale pfx : String) : JVal → Nat × List LoadedTranslation
  | .scalar _ => (0, [])
  | .objNil => (0, [])
  | .objCons k v rest =>
    let fullKey := if pfx = "" then k else pfx ++ "." ++ k
    match v with
    | .scalar s =>
      let r := loadJson locale pfx rest
      (r.1 + 1, ⟨fullKey, locale, .scalar s, .objNil⟩ :: r.2)
    | v =>
      if v.hasKey "one" || v.hasKey "other" then
        let r := loadJson locale pfx rest
        (r.1 + 1, ⟨fullKey, locale, (v.lookup "other").getD (.scalar ""), v⟩ :: r.2)
      else
        let r1 := loadJson locale fullKey v
        let r2 := loadJson locale pfx rest
        (r1.1 + r2.1, r1.2 ++ r2.2)

/-- Two-digit zero-padded rendering (Python format 02d). -/
def pad2 (n : Nat) : List Char := if n < 10 then ['0', toDigitChar n] else natDigits n

/-- Last two characters of the year string (Python str slice from -2). -/
def last2 (ds : List Char) : List Char := ds.drop (ds.length - 2)

/-- Token characters YYYY. -/
def yyyyTok : List Char := ['Y', 'Y', 'Y', 'Y']

/-- Token characters YY. -/
def yyTok : List Char := ['Y', 'Y']

/-- Token characters MM. -/
def mmTok : List Char := ['M', 'M']

/-- Token characters DD. -/
def ddTok : List Char := ['D', 'D']

/-- Token characters HH. -/
def hhTok : List Char := ['H', 'H']

/-- Token characters mm. -/
def miTok : List Char := ['m', 'm']

/-- Token characters ss. -/
def ssTok : List Char := ['s', 's']

/-- Formatter.date body: the sequential str.replace loop over the replacements
dict in insertion order, including the identity CJK marker entries. -/
def dateSeq (y m d : Nat) (fmt : List Char) : List Char :=
  let y4 := natDigits y
  let r1 := replaceAll yyyyTok y4 fmt
  let r2 := replaceAll yyTok (last2 y4) r1
  let r3 := replaceAll mmTok (pad2 m) r2
  let r4 := replaceAll ddTok (pad2 d) r3
  let r5 := replaceAll ['年'] ['年'] r4
  let r6 := replaceAll ['月'] ['月'] r5
  replaceAll ['日'] ['日'] r6

/-- Formatter.time body: the sequential str.replace loop over HH, mm, ss. -/
def timeSeq (h mi s : Nat) (fmt : List Char) : List Char :=
  let r1 := replaceAll hhTok (pad2 h) fmt
  let r2 := replaceAll miTok (pad2 mi) r1
  replaceAll ssTok (pad2 s) r2

/-- Formatter.date: token substitution over the format string, defaulting to
the locale's date_format when the argument is absent or falsy. -/
def Formatter.date (f : Formatter) (y m d : Nat) (format_str : Option String) : String :=
  let fmt := match format_str with
    | some s => if s = "" then f.locale.date_format else s
    | none => f.locale.date_format
  String.mk (dateSeq y m d fmt.toList)

/-- Formatter.time: token substitution over the format string, defaulting to
the locale's time_format when the argument is absent or falsy. -/
def Formatter.time (f : Formatter) (h mi s : Nat) (format_str : Option String) : String :=
  let fmt := match format_str with
    | some s => if s = "" then f.locale.time_format else s
    | none => f.locale.time_format
  String.mk (timeSeq h mi s fmt.toList)

/-- Fueled single left-to-right pass substituting the first table token whose
pattern starts at the current position, never rescanning emitted replacement
text; this is the disjoint-token-span substitution the specification asks for.
The fuel never runs out when it is at least the length of the scanned list. -/
def scanSubstAux (table : List (List Char × List Char)) : Nat → List Char → List Char
  | 0, s => s
  | _+1, [] => []
  | fuel+1, c :: rest =>
    match table.find? (fun e => !e.1.isEmpty && e.1.isPrefixOf (c :: rest)) with
    | some e => e.2 ++ scanSubstAux table fuel ((c :: rest).drop e.1.length)
    | none => c :: scanSubstAux table fuel rest

/-- Single-pass substitution over a token table. -/
def scanSubst (table : List (List Char × List Char)) (s : List Char) : List Char :=
  scanSubstAux table s.length s

/-- Modelled from the spec's wording for date tokens: position-based scanning
that applies replacements on disjoint token spans of the original format
string, trying YYYY before its prefix YY. -/
def dateScan (y m d : Nat) (fmt : List Char) : List Char :=
  let y4 := natDigits y
  scanSubst [(yyyyTok, y4), (yyTok, last2 y4), (mmTok, pad2 m), (ddTok, pad2 d)] fmt

/-- Modelled from the spec's wording for time tokens: position-based scanning
on disjoint token spans of the original format string. -/
def timeScan (h mi s : Nat) (fmt : List Char) : List Char :=
  scanSubst [(hhTok, pad2 h), (miTok, pad2 mi), (ssTok, pad2 s)] fmt

/-- A value passed to I18n.format: a numeric value, a date, or a string. -/
inductive PyVal : Type where
  | num (v : PyNum)
  | date (y m d : Nat)
  | str (s : String)
deriving DecidableEq

/-- Runtime numeric type test used by I18n.format. -/
def PyVal.isNumeric : PyVal → Bool
  | .num _ => true
  | _ => false

/-- Runtime date type test used by I18n.format. -/
def PyVal.isDate : PyVal → Bool
  | .date _ _ _ => true
  | _ => false

/-- Python str() of a format argument on the final fallthrough branch. -/
def PyVal.render : PyVal → String
  | .str s => s
  | .num (.int n) => intStr n
  | .num (.dec units scale) => String.mk ((formatFixedStr units scale scale).toList.filter
      fun c => c != ',')
  | .date y m d => String.mk (dateSeq y m d "YYYY-MM-DD".toList)

/-- I18n.format: the dispatch chain exactly as written in the source, where
the isinstance test for numeric values is or-ed into the first branch and the
isinstance test for dates into the third. Branches whose formatter would raise
a Python TypeError on a value of the wrong runtime type are modeled as the
empty string and are never exercised by the claims. -/
def I18n.format (loc : Locale) (value : PyVal) (format_type : String) : String :=
  if format_type = "number" || value.isNumeric then
    match value with
    | .num v => Formatter.number ⟨loc⟩ v 2
    | _ => ""
  else if format_type = "currency" then
    match value with
    | .num v => Formatter.currency ⟨loc⟩ v none
    | _ => ""
  else if format_type = "date" || value.isDate then
    match value with
    | .date y m d => Formatter.date ⟨loc⟩ y m d none
    | _ => ""
  else if format_type = "percentage" then
    match value with
    | .num v => Formatter.percentage ⟨loc⟩ v 1
    | _ => ""
  else value.render

theorem replaceAllAux_congr (pat repl : List Char) :
    ∀ f1 : Nat, ∀ s : List Char, ∀ f2 : Nat, s.length ≤ f1 → s.length ≤ f2 →
      replaceAllAux pat repl f1 s = replaceAllAux pat repl f2 s := by
  intro f1
  induction f1 with
  | zero =>
    intro s f2 h1 _
    have hs : s = [] := List.eq_nil_of_length_eq_zero (Nat.le_zero.mp h1)
    subst hs
    cases f2 <;> simp [replaceAllAux]
  | succ f1 ih =>
    intro s f2 h1 h2
    cases s with
    | nil => cases f2 <;> simp [replaceAllAux]
    | cons c rest =>
      cases f2 with
      | zero => exact absurd h2 (by simp)
      | succ k =>
        simp only [replaceAllAux]
        by_cases hp : (pat.isPrefixOf (c :: rest) && !pat.isEmpty) = true
        · rw [if_pos hp, if_pos hp]
          have hne : 1 ≤ pat.length := by
            cases pat with
            | nil => simp at hp
            | cons p ps => simp
          have hd : ((c :: rest).drop pat.length).length ≤ rest.length := by
            simp only [List.length_drop, List.length_cons]
            omega
          exact congrArg (repl ++ ·)
            (ih _ k (le_trans hd (Nat.lt_succ_iff.mp (Nat.lt_of_lt_of_le (Nat.lt_succ_of_le le_rfl) h1)))
              (le_trans hd (Nat.lt_succ_iff.mp (Nat.lt_of_lt_of_le (Nat.lt_succ_of_le le_rfl) h2))))
        · rw [if_neg hp, if_neg hp]
          have hr1 : rest.length ≤ f1 := by simp at h1; omega
          have hr2 : rest.length ≤ k := by simp at h2; omega
          exact congrArg (c :: ·) (ih _ k hr1 hr2)

theorem replaceAllAux_eq (pat repl : List Char) (f : Nat) (s : List Char) (h : s.length ≤ f) :
    replaceAllAux pat repl f s = replaceAll pat repl s :=
  replaceAllAux_congr pat repl f s s.length h le_rfl

theorem replaceAll_cons_pos (pat repl : List Char) (c : Char) (rest : List Char)
    (h : (pat.isPrefixOf (c :: rest) && !pat.isEmpty) = true) :
    replaceAll pat repl (c :: rest) = repl ++ replaceAll pat repl ((c :: rest).drop pat.length) := by
  have hne : 1 ≤ pat.length := by
    cases pat with
    | nil => simp at h
    | cons p ps => simp
  have : replaceAll pat repl (c :: rest) = replaceAllAux pat repl (rest.length + 1) (c :: rest) := rfl
  rw [this]
  simp only [replaceAllAux, if_pos h]
  refine congrArg (repl ++ ·) (replaceAllAux_eq pat repl _ _ ?_)
  simp only [List.length_drop, List.length_cons]
  omega

theorem replaceAll_cons_neg (pat repl : List Char) (c : Char) (rest : List Char)
    (h : (pat.isPrefixOf (c :: rest) && !pat.isEmpty) = false) :
    replaceAll pat repl (c :: rest) = c :: replaceAll pat repl rest := by
  have : replaceAll pat repl (c :: rest) = replaceAllAux pat repl (rest.length + 1) (c :: rest) := rfl
  rw [this]
  simp only [replaceAllAux]
  rw [if_neg (ne_true_of_eq_false h)]
  rfl

theorem replaceAll_hit (pat repl : List Char) (c : Char) (rest : List Char)
    (hne : pat ≠ []) (h : pat.isPrefixOf (c :: rest) = true) :
    replaceAll pat repl (c :: rest) = repl ++ replaceAll pat repl ((c :: rest).drop pat.length) := by
  apply replaceAll_cons_pos
  simp [h, hne]

theorem replaceAll_miss (pat repl : List Char) (c : Char) (rest : List Char)
    (h : pat.isPrefixOf (c :: rest) = false) :
    replaceAll pat repl (c :: rest) = c :: replaceAll pat repl rest := by
  apply replaceAll_cons_neg
  simp [h]

theorem replaceAll_self (t : List Char) (hne : t ≠ []) :
    ∀ s : List Char, replaceAll t t s = s := by
  have H : ∀ n : Nat, ∀ s : List Char, s.length ≤ n → replaceAll t t s = s := by
    intro n
    induction n with
    | zero =>
      intro s hs
      have : s = [] := List.eq_nil_of_length_eq_zero (Nat.le_zero.mp hs)
      subst this
      rfl
    | succ n ih =>
      intro s hs
      cases s with
      | nil => rfl
      | cons c rest =>
        by_cases hp : t.isPrefixOf (c :: rest) = true
        · obtain ⟨u, hu⟩ := List.isPrefixOf_iff_prefix.mp hp
          rw [replaceAll_hit t t c rest hne hp, ← hu, List.drop_left]
          have hlt : 1 ≤ t.length := by
            cases t with
            | nil => exact absurd rfl hne
            | cons a as => simp
          have hul : u.length ≤ n := by
            have : t.length + u.length = rest.length + 1 := by
              have := congrArg List.length hu
              simpa using this
            simp only [List.length_cons] at hs
            omega
          rw [ih u hul]
        · rw [replaceAll_miss t t c rest (Bool.eq_false_iff.mpr hp)]
          have : rest.length ≤ n := by
            simp only [List.length_cons] at hs
            omega
          rw [ih rest this]
  exact fun s => H s.length s le_rfl

theorem replaceAll_skip (pat repl : List Char) (hne : pat ≠ []) :
    ∀ pre s : List Char, (∀ a ∈ pre, a ∉ pat) →
      replaceAll pat repl (pre ++ s) = pre ++ replaceAll pat repl s := by
  intro pre
  induction pre with
  | nil => intro s _; rfl
  | cons a pre ih =>
    intro s h
    have hmiss : pat.isPrefixOf (a :: (pre ++ s)) = false := by
      cases pat with
      | nil => exact absurd rfl hne
      | cons p ps =>
        have hap : a ≠ p := by
          intro hap
          exact (h a (by simp)) (by simp [hap])
        simp [List.isPrefixOf, Ne.symm hap]
    rw [List.cons_append, replaceAll_miss pat repl a (pre ++ s) hmiss,
      ih s (fun a ha => h a (by simp [ha]))]
    simp

theorem replaceAll_head (pat repl : List Char) (hr : repl ≠ []) (s : List Char) (x : Char)
    (hx : (replaceAll pat repl s).head? = some x) : s.head? = some x ∨ x ∈ repl := by
  cases s with
  | nil => simp [replaceAll, replaceAllAux] at hx
  | cons c rest =>
    by_cases hp : (pat.isPrefixOf (c :: rest) && !pat.isEmpty) = true
    · rw [replaceAll_cons_pos pat repl c rest hp] at hx
      cases repl with
      | nil => exact absurd rfl hr
      | cons r rs =>
        rw [List.cons_append] at hx
        simp only [List.head?_cons, Option.some.injEq] at hx
        exact Or.inr (by simp [← hx])
    · rw [replaceAll_cons_neg pat repl c rest (Bool.eq_false_iff.mpr hp)] at hx
      simp only [List.head?_cons, Option.some.injEq] at hx
      exact Or.inl (by simp [hx])

theorem toDigitChar_isDigit (n : Nat) : (toDigitChar n).isDigit = true := by
  unfold toDigitChar
  split <;> decide

theorem natDigitsAux_digits :
    ∀ fuel n : Nat, ∀ c ∈ natDigitsAux fuel n, c.isDigit = true := by
  intro fuel
  induction fuel with
  | zero =>
    intro n c hc
    simp only [natDigitsAux, List.mem_singleton] at hc
    subst hc
    exact toDigitChar_isDigit _
  | succ fuel ih =>
    intro n c hc
    simp only [natDigitsAux] at hc
    split at hc
    · simp only [List.mem_singleton] at hc
      subst hc
      exact toDigitChar_isDigit _
    · rcases List.mem_append.mp hc with h | h
      · exact ih _ c h
      · simp only [List.mem_singleton] at h
        subst h
        exact toDigitChar_isDigit _

theorem natDigits_digits (n : Nat) : ∀ c ∈ natDigits n, c.isDigit = true :=
  natDigitsAux_digits n n

theorem natDigitsAux_ne_nil : ∀ fuel n : Nat, natDigitsAux fuel n ≠ [] := by
  intro fuel n
  cases fuel with
  | zero => simp [natDigitsAux]
  | succ fuel =>
    simp only [natDigitsAux]
    split <;> simp

theorem natDigits_ne_nil (n : Nat) : natDigits n ≠ [] := natDigitsAux_ne_nil n n

theorem chunk3_join : ∀ l : List Char, (chunk3 l).join = l := by
  intro l
  induction l using chunk3.induct with
  | case1 => rfl
  | case2 a => rfl
  | case3 a b => rfl
  | case4 a b c rest ih => simp [chunk3, ih]

theorem chunk3_sizes :
    ∀ l : List Char,
      (chunk3 l).all (fun g => decide (g.length ≤ 3) && !g.isEmpty) = true := by
  intro l
  induction l using chunk3.induct with
  | case1 => rfl
  | case2 a => rfl
  | case3 a b => rfl
  | case4 a b c rest ih => simp [chunk3, ih]

theorem chunk3_dropLast_sizes :
    ∀ l : List Char, ((chunk3 l).dropLast).all (fun g => g.length == 3) = true := by
  intro l
  induction l using chunk3.induct with
  | case1 => rfl
  | case2 a => rfl
  | case3 a b => rfl
  | case4 a b c rest ih =>
    cases h : chunk3 rest with
    | nil => simp [chunk3, h]
    | cons g gs =>
      rw [h] at ih
      simp only [chunk3, h, List.dropLast_cons₂, List.all_cons, ih]
      simp

theorem filter_joinGroups :
    ∀ gs : List (List Char), (∀ g ∈ gs, ∀ c ∈ g, c ≠ ',') →
      (joinGroups gs).filter (fun c => c != ',') = gs.join := by
  intro gs
  induction gs using joinGroups.induct with
  | case1 => intro _; rfl
  | case2 g =>
    intro h
    simp only [joinGroups, List.join]
    rw [List.filter_eq_self.mpr]
    · simp
    · intro c hc
      simpa using h g (by simp) c hc
  | case3 g g2 rest ih =>
    intro h
    simp only [joinGroups, List.join]
    rw [List.filter_append]
    rw [List.filter_eq_self.mpr (fun c hc => by simpa using h g (by simp) c hc)]
    rw [List.filter_cons_of_neg (by decide)]
    rw [ih (fun g hg c hc => h g (by simp [hg]) c hc)]
    simp

theorem join_map_reverse_reverse :
    ∀ M : List (List Char), ((M.map List.reverse).reverse).join = M.join.reverse := by
  intro M
  induction M with
  | nil => rfl
  | cons g M ih =>
    simp only [List.map_cons, List.reverse_cons, List.join_append, List.join_cons, ih]
    simp [List.reverse_append]

theorem groupedDigits_filter (n : Nat) :
    (groupedDigits n).filter (fun c => c != ',') = natDigits n := by
  unfold groupedDigits
  rw [filter_joinGroups]
  · rw [join_map_reverse_reverse, chunk3_join, List.reverse_reverse]
  · intro g hg c hc
    simp only [List.mem_reverse, List.mem_map] at hg
    obtain ⟨g0, hg0, rfl⟩ := hg
    rw [List.mem_reverse] at hc
    have hcl : c ∈ (chunk3 (natDigits n).reverse).join := List.mem_join.mpr ⟨g0, hg0, hc⟩
    rw [chunk3_join, List.mem_reverse] at hcl
    have := natDigits_digits n c hcl
    intro hcomma
    subst hcomma
    simp at this

/-- Claim C6: Formatter.number groups the integer part in threes from the
right with locale.number_thousand and renders the fractional part of
non-integral inputs with locale.number_decimal as radix point; an int input
never renders a fractional part regardless of the decimals argument (the
rendering is independent of it); 1234567.89 formats as 1,234,567.89 under
en-US and as 1.234.567,89 under de-DE. Grouping is stated through
groupedDigits, the integer-part renderer used by Formatter.number: stripping
the separators recovers the digit string, and the chunks counted from the
right all have size three except possibly the leftmost, which is nonempty. -/
theorem number_grouping_and_decimals :
    (∀ (loc : Locale) (n : Int) (d1 d2 : Nat),
        Formatter.number ⟨loc⟩ (.int n) d1 = Formatter.number ⟨loc⟩ (.int n) d2)
    ∧ (∀ n : Nat, (groupedDigits n).filter (fun c => c != ',') = natDigits n)
    ∧ (∀ n : Nat, ((chunk3 (natDigits n).reverse).all
        (fun g => decide (g.length ≤ 3) && !g.isEmpty)) = true)
    ∧ (∀ n : Nat, (((chunk3 (natDigits n).reverse).dropLast).all
        (fun g => g.length == 3)) = true)
    ∧ Formatter.number ⟨enUS⟩ (.dec 123456789 2) 2 = "1,234,567.89"
    ∧ Formatter.number ⟨deDE⟩ (.dec 123456789 2) 2 = "1.234.567,89" := by
  refine ⟨fun _ _ _ _ => rfl, groupedDigits_filter, fun n => chunk3_sizes _,
    fun n => chunk3_dropLast_sizes _, by decide, by decide⟩

/-- Claim C9 (counterexample): the claim's es-ES example fails on the code:
currency(99.99) under es-ES renders the magnitude with the es-ES decimal
comma, so the result is not the claimed string with a decimal point. -/
theorem currency_esES_counterexample :
    Formatter.currency ⟨esES⟩ (.dec 9999 2) none ≠ "99.99 €" := by decide

/-- Claim C9 (amended): currency formats the magnitude via number(value, 2)
and places the symbol before the number with no separator when the locale's
currency_position is "before", and after the number separated by one space
when it is "after"; currency(99.99) is the dollar string under en-US and
"99,99 €" under es-ES, whose decimal separator is a comma. -/
theorem currency_positioning :
    (∀ (f : Formatter) (v : PyNum), f.locale.currency_position = "before" →
        Formatter.currency f v none = f.locale.currency_symbol ++ Formatter.number f v 2)
    ∧ (∀ (f : Formatter) (v : PyNum), f.locale.currency_position = "after" →
        Formatter.currency f v none = Formatter.number f v 2 ++ " " ++ f.locale.currency_symbol)
    ∧ Formatter.currency ⟨enUS⟩ (.dec 9999 2) none = "$99.99"
    ∧ Formatter.currency ⟨esES⟩ (.dec 9999 2) none = "99,99 €" := by
  refine ⟨?_, ?_, by decide, by decide⟩
  · intro f v h
    simp [Formatter.currency, h]
  · intro f v h
    simp [Formatter.currency, h]

/-- Witness for currency_positioning at the stock en-US and es-ES locales. -/
theorem currency_positioning_witness :
    enUS.currency_position = "before" ∧ esES.currency_position = "after"
    ∧ Formatter.currency ⟨enUS⟩ (.int 5) none =
        enUS.currency_symbol ++ Formatter.number ⟨enUS⟩ (.int 5) 2
    ∧ Formatter.currency ⟨esES⟩ (.int 5) none =
        Formatter.number ⟨esES⟩ (.int 5) 2 ++ " " ++ esES.currency_symbol :=
  ⟨by decide, by decide, currency_positioning.1 ⟨enUS⟩ (.int 5) (by decide),
    currency_positioning.2.1 ⟨esES⟩ (.int 5) (by decide)⟩

theorem firstHit_cons_hit (st : TranslationStore) (key c : String) (post : List String)
    (t : Translation) (h : st.get_translation c key = some t) :
    firstHit st (c :: post) key = some (c, t) := by
  unfold firstHit
  rw [List.findSome?_cons]
  rw [h]
  rfl

theorem firstHit_skip (st : TranslationStore) (key : String) :
    ∀ pre rest : List String, (∀ c ∈ pre, st.get_translation c key = none) →
      firstHit st (pre ++ rest) key = firstHit st rest key := by
  intro pre
  induction pre with
  | nil => intro rest _; rfl
  | cons c cs ih =>
    intro rest h
    unfold firstHit
    rw [List.cons_append, List.findSome?_cons, h c (by simp)]
    exact ih rest (fun c hc => h c (by simp [hc]))

theorem firstHit_eq_none (st : TranslationStore) (key : String) :
    ∀ cands : List String, (∀ c ∈ cands, st.get_translation c key = none) →
      firstHit st cands key = none := by
  intro cands
  induction cands with
  | nil => intro _; rfl
  | cons c cs ih =>
    intro h
    unfold firstHit
    rw [List.findSome?_cons, h c (by simp)]
    exact ih (fun c hc => h c (by simp [hc]))

/-- Claim C4: when no candidate locale (the requested locale, its fallback
chain, then the default locale) has the key, translate returns the supplied
default when given and the raw key otherwise, leaving the caller's params
untouched; the model is a total function, matching the code, which raises no
exception for missing keys or unknown locales. The closed conjuncts evaluate
the unknown key with and without a caller default. -/
theorem translate_missing_key :
    (∀ (tr : Translator) (st : TranslationStore) (key L : String)
        (params : List (String × String)) (count : Option Int) (dflt : Option String),
        L ≠ "" →
        (∀ c ∈ candidatesOf tr L, st.get_translation c key = none) →
        tr.translate st key (some L) params count dflt = (dflt.getD key, params))
    ∧ mkTranslator.translate emptyStore "missing.key" (some "en-US") [] none none =
        ("missing.key", [])
    ∧ mkTranslator.translate emptyStore "missing.key" (some "en-US") [] none (some "fallback") =
        ("fallback", []) := by
  refine ⟨?_, by decide, by decide⟩
  intro tr st key L params count dflt hL hmiss
  simp only [Translator.translate]
  rw [if_neg hL]
  rw [firstHit_eq_none st key _ hmiss]

/-- Witness for translate_missing_key on a store with no translations. -/
theorem translate_missing_key_witness :
    (("fr-FR" : String) ≠ "")
    ∧ (∀ c ∈ candidatesOf mkTranslator "fr-FR", emptyStore.get_translation c "greeting" = none)
    ∧ mkTranslator.translate emptyStore "greeting" (some "fr-FR") [] none none =
        ((none : Option String).getD "greeting", []) :=
  ⟨by decide, by decide,
    translate_missing_key.1 mkTranslator emptyStore "greeting" "fr-FR" [] none none
      (by decide) (by decide)⟩

/-- Claim C2: translate tries the ordered candidate list, the requested
locale, then its fallback chain, then the default locale, and resolves with
the first candidate holding the key: the conclusion depends only on the
candidates before the hit and on the hit itself, never on the later
candidates. The closed conjuncts exhibit the stock candidate list for en-GB
and the welcome example resolving from en-GB to the en-US text. -/
theorem translate_first_candidate_wins :
    (∀ (tr : Translator) (st : TranslationStore) (key L : String)
        (params : List (String × String)) (pre post : List String) (c : String)
        (t : Translation), L ≠ "" →
        candidatesOf tr L = pre ++ c :: post →
        (∀ c2 ∈ pre, st.get_translation c2 key = none) →
        st.get_translation c key = some t →
        tr.translate st key (some L) params none none = (interpolate t.value params, params))
    ∧ candidatesOf mkTranslator "en-GB" = ["en-GB", "en-US", "en-US"]
    ∧ (mkTranslator.translate welcomeStore "welcome" (some "en-GB") [] none none).1 =
        "Welcome to BlackRoad" := by
  refine ⟨?_, by decide, by decide⟩
  intro tr st key L params pre post c t hL hc hpre hhit
  simp only [Translator.translate]
  rw [if_neg hL, hc, firstHit_skip st key pre (c :: post) hpre,
    firstHit_cons_hit st key c post t hhit]

/-- Witness for translate_first_candidate_wins: welcome under en-GB resolves
through the fallback chain to the en-US entry. -/
theorem translate_first_candidate_wins_witness :
    (("en-GB" : String) ≠ "")
    ∧ candidatesOf mkTranslator "en-GB" = ["en-GB"] ++ "en-US" :: ["en-US"]
    ∧ welcomeStore.get_translation "en-GB" "welcome" = none
    ∧ mkTranslator.translate welcomeStore "welcome" (some "en-GB") [] none none =
        (interpolate "Welcome to BlackRoad" [], []) :=
  ⟨by decide, by decide, by decide,
    translate_first_candidate_wins.1 mkTranslator welcomeStore "welcome" "en-GB" []
      ["en-GB"] ["en-US"] "en-US"
      { key := "welcome", locale := "en-US", value := "Welcome to BlackRoad",
        plural_forms := [], context := "" }
      (by decide) (by decide) (by decide) (by decide)⟩

/-- Claim C3: with a resolved translation carrying non-empty plural forms and
a supplied count, translate selects the category through the hit locale's
plural rule (the default zero/one/other rule when none is configured),
resolves the text through pluralText's fallback to the other entry and then
to the plain value, and injects count into the interpolation parameters under
the count key; the items examples evaluate to the claimed strings, the zero
case falling back to the other form. -/
theorem translate_plural_selection :
    (∀ (tr : Translator) (st : TranslationStore) (key L : String)
        (params : List (String × String)) (cnt : Int) (dflt : Option String)
        (hitLoc : String) (t : Translation), L ≠ "" →
        firstHit st (candidatesOf tr L) key = some (hitLoc, t) →
        t.plural_forms ≠ [] →
        tr.translate st key (some L) params (some cnt) dflt =
          (interpolate (pluralText t (getPluralForm st hitLoc cnt))
              (dictSet params "count" (intStr cnt)),
            if params.isEmpty then params else dictSet params "count" (intStr cnt)))
    ∧ defaultPluralRule 0 = .zero
    ∧ defaultPluralRule 1 = .one
    ∧ (∀ cnt : Int, cnt ≠ 0 → cnt ≠ 1 → defaultPluralRule cnt = .other)
    ∧ (mkTranslator.translate itemsStore "items" none [] (some 1) none).1 = "1 item"
    ∧ (mkTranslator.translate itemsStore "items" none [] (some 5) none).1 = "5 items"
    ∧ (mkTranslator.translate itemsStore "items" none [] (some 0) none).1 = "0 items" := by
  refine ⟨?_, by decide, by decide, ?_, by decide, by decide, by decide⟩
  · intro tr st key L params cnt dflt hitLoc t hL hfh hpl
    simp only [Translator.translate]
    rw [if_neg hL, hfh]
    simp only [if_pos hpl]
  · intro cnt h0 h1
    unfold defaultPluralRule
    rw [if_neg h0, if_neg h1]

/-- Witness for translate_plural_selection on the items store. -/
theorem translate_plural_selection_witness :
    (("en-US" : String) ≠ "")
    ∧ firstHit itemsStore (candidatesOf mkTranslator "en-US") "items" =
        some ("en-US",
          { key := "items", locale := "en-US", value := "\x7b\x7bcount\x7d\x7d items",
            plural_forms := [("one", "\x7b\x7bcount\x7d\x7d item"),
                             ("other", "\x7b\x7bcount\x7d\x7d items")],
            context := "" })
    ∧ mkTranslator.translate itemsStore "items" (some "en-US") [] (some 1) none =
        (interpolate
            (pluralText
              { key := "items", locale := "en-US", value := "\x7b\x7bcount\x7d\x7d items",
                plural_forms := [("one", "\x7b\x7bcount\x7d\x7d item"),
                                 ("other", "\x7b\x7bcount\x7d\x7d items")],
                context := "" }
              (getPluralForm itemsStore "en-US" 1))
            (dictSet [] "count" (intStr 1)),
          if ([] : List (String × String)).isEmpty then [] else dictSet [] "count" (intStr 1)) :=
  ⟨by decide, by decide,
    translate_plural_selection.1 mkTranslator itemsStore "items" "en-US" [] 1 none "en-US"
      { key := "items", locale := "en-US", value := "\x7b\x7bcount\x7d\x7d items",
        plural_forms := [("one", "\x7b\x7bcount\x7d\x7d item"),
                         ("other", "\x7b\x7bcount\x7d\x7d items")],
        context := "" }
      (by decide) (by decide) (by decide)⟩

/-- Claim C10 (counterexample): a caller-supplied empty params dictionary
with a supplied count and a resolved pluralized translation receives no count
entry: Python's params-or-empty-dict idiom replaces the falsy empty
dictionary with a fresh one before the in-place insertion. -/
theorem params_mutation_counterexample :
    (mkTranslator.translate itemsStore "items" (some "en-US") [] (some 1) none).2 = []
    ∧ List.lookup "count"
        (mkTranslator.translate itemsStore "items" (some "en-US") [] (some 1) none).2 = none :=
  ⟨by decide, by decide⟩

/-- Claim C10 (amended): the caller's params dictionary receives the count
entry in place, overwriting a pre-existing count, exactly when the caller
supplied a NON-EMPTY params dictionary together with a count and the resolved
translation has non-empty plural forms; in every other case, including a
caller-supplied empty dictionary, a missing count, an unpluralized resolved
translation, or a missing key, the caller's dictionary is left unchanged. -/
theorem params_mutation :
    (∀ (tr : Translator) (st : TranslationStore) (key L : String)
        (params : List (String × String)) (cnt : Int) (dflt : Option String)
        (hitLoc : String) (t : Translation), L ≠ "" → params ≠ [] →
        firstHit st (candidatesOf tr L) key = some (hitLoc, t) →
        t.plural_forms ≠ [] →
        (tr.translate st key (some L) params (some cnt) dflt).2 =
          dictSet params "count" (intStr cnt))
    ∧ (∀ (tr : Translator) (st : TranslationStore) (key : String) (loc : Option String)
        (params : List (String × String)) (dflt : Option String),
        (tr.translate st key loc params none dflt).2 = params)
    ∧ (∀ (tr : Translator) (st : TranslationStore) (key L : String)
        (params : List (String × String)) (cnt : Int) (dflt : Option String)
        (hitLoc : String) (t : Translation), L ≠ "" →
        firstHit st (candidatesOf tr L) key = some (hitLoc, t) →
        t.plural_forms = [] →
        (tr.translate st key (some L) params (some cnt) dflt).2 = params)
    ∧ (∀ (tr : Translator) (st : TranslationStore) (key L : String)
        (params : List (String × String)) (count : Option Int) (dflt : Option String),
        L ≠ "" →
        (∀ c ∈ candidatesOf tr L, st.get_translation c key = none) →
        (tr.translate st key (some L) params count dflt).2 = params)
    ∧ (∀ (tr : Translator) (st : TranslationStore) (key : String) (loc : Option String)
        (count : Option Int) (dflt : Option String),
        (tr.translate st key loc [] count dflt).2 = [])
    ∧ (mkTranslator.translate itemsStore "items" none
        [("count", "9"), ("x", "y")] (some 1) none).2 = [("count", "1"), ("x", "y")] := by
  refine ⟨?_, ?_, ?_, ?_, ?_, by decide⟩
  · intro tr st key L params cnt dflt hitLoc t hL hp hfh hpl
    simp only [Translator.translate]
    rw [if_neg hL, hfh]
    simp only [if_pos hpl]
    simp [List.isEmpty_iff, hp]
  · intro tr st key loc params dflt
    cases loc with
    | none =>
      simp only [Translator.translate]
      cases firstHit st (candidatesOf tr tr.default_locale) key with
      | none => rfl
      | some p => cases p; rfl
    | some l =>
      simp only [Translator.translate]
      cases firstHit st (candidatesOf tr (if l = "" then tr.default_locale else l)) key with
      | none => rfl
      | some p => cases p; rfl
  · intro tr st key L params cnt dflt hitLoc t hL hfh hpl
    simp only [Translator.translate]
    rw [if_neg hL, hfh]
    simp [hpl]
  · intro tr st key L params count dflt hL hmiss
    simp only [Translator.translate]
    rw [if_neg hL, firstHit_eq_none st key _ hmiss]
  · intro tr st key loc count dflt
    cases loc with
    | none =>
      simp only [Translator.translate]
      cases firstHit st (candidatesOf tr tr.default_locale) key with
      | none => rfl
      | some p =>
        cases p with
        | mk hitLoc t =>
          cases count with
          | none => rfl
          | some c =>
            by_cases hpl : t.plural_forms ≠ []
            · simp [hpl]
            · simp [hpl]
    | some l =>
      simp only [Translator.translate]
      cases firstHit st (candidatesOf tr (if l = "" then tr.default_locale else l)) key with
      | none => rfl
      | some p =>
        cases p with
        | mk hitLoc t =>
          cases count with
          | none => rfl
          | some c =>
            by_cases hpl : t.plural_forms ≠ []
            · simp [hpl]
            · simp [hpl]

/-- Witness for params_mutation: a non-empty caller dictionary receives the
count entry in place. -/
theorem params_mutation_witness :
    (("en-US" : String) ≠ "") ∧ ([("x", "y")] : List (String × String)) ≠ []
    ∧ (mkTranslator.translate itemsStore "items" (some "en-US")
        [("x", "y")] (some 1) none).2 = dictSet [("x", "y")] "count" (intStr 1) :=
  ⟨by decide, by decide,
    params_mutation.1 mkTranslator itemsStore "items" "en-US" [("x", "y")] 1 none "en-US"
      { key := "items", locale := "en-US", value := "\x7b\x7bcount\x7d\x7d items",
        plural_forms := [("one", "\x7b\x7bcount\x7d\x7d item"),
                         ("other", "\x7b\x7bcount\x7d\x7d items")],
        context := "" }
      (by decide) (by decide) (by decide) (by decide)⟩

theorem takeWhile_append_stop (p : Char → Bool) :
    ∀ a : List Char, (∀ c ∈ a, p c = true) → ∀ (x : Char) (b : List Char), p x = false →
      (a ++ x :: b).takeWhile p = a ∧ (a ++ x :: b).dropWhile p = x :: b := by
  intro a
  induction a with
  | nil =>
    intro _ x b hx
    constructor
    · simp [List.takeWhile_cons, hx]
    · simp [List.dropWhile_cons, hx]
  | cons c a ih =>
    intro h x b hx
    have hc : p c = true := h c (by simp)
    have hrec := ih (fun c hc2 => h c (by simp [hc2])) x b hx
    constructor
    · simp [List.takeWhile_cons, hc, hrec.1]
    · simp [List.dropWhile_cons, hc, hrec.2]

theorem interpAux_congr (params : List (String × String)) :
    ∀ f1 : Nat, ∀ s : List Char, ∀ f2 : Nat, s.length ≤ f1 → s.length ≤ f2 →
      interpAux params f1 s = interpAux params f2 s := by
  intro f1
  induction f1 with
  | zero =>
    intro s f2 h1 _
    have hs : s = [] := List.eq_nil_of_length_eq_zero (Nat.le_zero.mp h1)
    subst hs
    cases f2 <;> simp [interpAux]
  | succ f1 ih =>
    intro s f2 h1 h2
    cases s with
    | nil => cases f2 <;> simp [interpAux]
    | cons c1 s1 =>
      cases s1 with
      | nil =>
        cases f2 with
        | zero => exact absurd h2 (by simp)
        | succ k => simp [interpAux]
      | cons c2 rest =>
        cases f2 with
        | zero => exact absurd h2 (by simp)
        | succ k =>
          have hlen : rest.length + 2 ≤ f1 + 1 := by simpa using h1
          have hlen2 : rest.length + 2 ≤ k + 1 := by simpa using h2
          simp only [interpAux]
          by_cases hc : (decide (c1 = '{') && decide (c2 = '{')) = true
          · rw [if_pos hc, if_pos hc]
            have hdw : (List.dropWhile isWordChar rest).length ≤ rest.length :=
              (List.dropWhile_suffix isWordChar).length_le
            split
            · rename_i w ws rest2 heq1 heq2
              have hr2 : rest2.length + 2 ≤ rest.length := by
                have := congrArg List.length heq2
                simp only [List.length_cons] at this
                omega
              exact congrArg _ (ih rest2 k (by omega) (by omega))
            · exact congrArg _ (ih (c2 :: rest) k (by simp; omega) (by simp; omega))
          · rw [if_neg hc, if_neg hc]
            exact congrArg _ (ih (c2 :: rest) k (by simp; omega) (by simp; omega))

theorem interpolateL_cons_ne (params : List (String × String)) (p : Char) (hp : p ≠ '{')
    (t : List Char) : interpolateL (p :: t) params = p :: interpolateL t params := by
  cases t with
  | nil => rfl
  | cons c2 rest =>
    simp only [interpolateL, List.length_cons, interpAux]
    rw [if_neg (by simp [hp])]

/-- Claim C5: interpolation replaces each placeholder, two opening braces, a
word-character identifier, then two closing braces, with the named parameter,
leaves a placeholder with no matching parameter verbatim (both cases are the
getD-style match in the conclusion), and is single-pass: the substituted
parameter value appears verbatim in the output and only the text after the
placeholder is scanned further, so braces inside an inserted value never
re-trigger substitution. -/
theorem interpolate_single_pass (pre name suf : List Char) (params : List (String × String))
    (hpre : '{' ∉ pre) (hname : name ≠ []) (hword : ∀ c ∈ name, isWordChar c = true) :
    interpolateL (pre ++ '{' :: '{' :: (name ++ '}' :: '}' :: suf)) params =
      pre ++ ((match List.lookup (String.mk name) params with
               | some v => v.toList
               | none => '{' :: '{' :: (name ++ ['}', '}'])) ++ interpolateL suf params) := by
  induction pre with
  | nil =>
    cases name with
    | nil => exact absurd rfl hname
    | cons w ws =>
      have hstop := takeWhile_append_stop isWordChar (w :: ws) hword '}' ('}' :: suf) (by decide)
      simp only [List.nil_append, interpolateL, List.length_cons, interpAux]
      rw [if_pos (by decide)]
      rw [hstop.1, hstop.2]
      split
      · rename_i w1 ws1 rest2 heq1 heq2
        cases heq1
        cases heq2
        congr 1
        refine interpAux_congr params _ suf suf.length ?_ le_rfl
        simp only [List.length_cons, List.length_append]
        omega
      · rename_i hcatch
        exact (hcatch w ws suf rfl rfl).elim
  | cons p pre ih =>
    have hp : p ≠ '{' := fun h => hpre (by simp [h])
    rw [List.cons_append, interpolateL_cons_ne params p hp,
      ih (fun h => hpre (by simp [h]))]
    simp

/-- Witness for interpolate_single_pass: a parameter value containing a full
placeholder token is inserted verbatim and not expanded again. -/
theorem interpolate_single_pass_witness :
    ('{' ∉ "Hi ".toList) ∧ (['n', 'a', 'm', 'e'] ≠ ([] : List Char))
    ∧ interpolateL ("Hi \x7b\x7bname\x7d\x7d!".toList)
        [("name", "\x7b\x7bx\x7d\x7d")] = "Hi \x7b\x7bx\x7d\x7d!".toList := by
  refine ⟨by decide, by decide, ?_⟩
  have e : "Hi \x7b\x7bname\x7d\x7d!".toList =
      "Hi ".toList ++ '{' :: '{' :: (['n', 'a', 'm', 'e'] ++ '}' :: '}' :: "!".toList) := by
    decide
  rw [e, interpolate_single_pass "Hi ".toList ['n', 'a', 'm', 'e'] "!".toList
    [("name", "\x7b\x7bx\x7d\x7d")] (by decide) (by decide) (by decide)]
  decide

/-- Claim C8: load_json flattens a nested mapping into dotted keys, a scalar
becoming one Translation carrying its stringified value, a mapping with a one
or other member becoming one pluralized Translation whose value is the
bundle's other member (the empty scalar when absent) and whose plural_forms
is the bundle itself, and any other mapping being recursed into with the
prefix extended; the returned count always equals the number of leaf
translations added, a plural bundle counting as one, and loading the nested
a.b example yields exactly one Translation with the dotted key and count 1. -/
theorem loadJson_count_and_flattening :
    (∀ (locale pfx : String) (v : JVal),
        (loadJson locale pfx v).1 = (loadJson locale pfx v).2.length)
    ∧ loadJson "L" "" (.objCons "a" (.objCons "b" (.scalar "x") .objNil) .objNil) =
        (1, [⟨"a.b", "L", .scalar "x", .objNil⟩])
    ∧ loadJson "L" ""
        (.objCons "items"
          (.objCons "one" (.scalar "1i") (.objCons "other" (.scalar "Ni") .objNil)) .objNil) =
        (1, [⟨"items", "L", .scalar "Ni",
              .objCons "one" (.scalar "1i") (.objCons "other" (.scalar "Ni") .objNil)⟩]) := by
  refine ⟨?_, by decide, by decide⟩
  intro locale pfx v
  induction v generalizing pfx with
  | scalar s => rfl
  | objNil => rfl
  | objCons k v rest ihv ihrest =>
    cases v with
    | scalar s =>
      simp only [loadJson, List.length_cons]
      rw [ihrest]
    | objNil =>
      simp only [loadJson]
      rw [if_neg (by decide)]
      simp [ihrest]
    | objCons k2 v2 rest2 =>
      simp only [loadJson]
      by_cases hb :
          (JVal.hasKey (.objCons k2 v2 rest2) "one"
            || JVal.hasKey (.objCons k2 v2 rest2) "other") = true
      · rw [if_pos hb]
        simp only [List.length_cons]
        rw [ihrest]
      · rw [if_neg hb]
        simp only [List.length_append]
        rw [ihv, ihrest]

/-- Claim C1 (code evaluation at the failing input): with the en-US locale,
I18n.format with an explicit currency or percentage tag on a numeric value
returns the plain number formatting, because the isinstance test for numbers
is or-ed into the first branch of the dispatch chain and overrides the
explicit tag; the corresponding Formatter results differ, refuting the
claimed dispatch, while the spec and the module's own example usage expect
the tag to win. -/
theorem format_tag_overridden_for_numbers :
    I18n.format enUS (.num (.dec 9999 2)) "currency" = "99.99"
    ∧ I18n.format enUS (.num (.dec 9999 2)) "percentage" = "99.99"
    ∧ Formatter.currency ⟨enUS⟩ (.dec 9999 2) none = "$99.99"
    ∧ Formatter.percentage ⟨enUS⟩ (.dec 9999 2) 1 = "9,999.0%"
    ∧ I18n.format enUS (.num (.dec 9999 2)) "currency"
        ≠ Formatter.currency ⟨enUS⟩ (.dec 9999 2) none
    ∧ I18n.format enUS (.num (.dec 9999 2)) "percentage"
        ≠ Formatter.percentage ⟨enUS⟩ (.dec 9999 2) 1 :=
  ⟨by decide, by decide, by decide, by decide, by decide, by decide⟩

theorem scanSubstAux_congr (table : List (List Char × List Char)) :
    ∀ f1 : Nat, ∀ s : List Char, ∀ f2 : Nat, s.length ≤ f1 → s.length ≤ f2 →
      scanSubstAux table f1 s = scanSubstAux table f2 s := by
  intro f1
  induction f1 with
  | zero =>
    intro s f2 h1 _
    have hs : s = [] := List.eq_nil_of_length_eq_zero (Nat.le_zero.mp h1)
    subst hs
    cases f2 <;> simp [scanSubstAux]
  | succ f1 ih =>
    intro s f2 h1 h2
    cases s with
    | nil => cases f2 <;> simp [scanSubstAux]
    | cons c rest =>
      cases f2 with
      | zero => exact absurd h2 (by simp)
      | succ k =>
        simp only [List.length_cons] at h1 h2
        simp only [scanSubstAux]
        cases hf : table.find? (fun e => !e.1.isEmpty && e.1.isPrefixOf (c :: rest)) with
        | none => exact congrArg _ (ih rest k (by omega) (by omega))
        | some e =>
          have hpred := List.find?_some hf
          have hne : 1 ≤ e.1.length := by
            cases hh : e.1 with
            | nil => rw [hh] at hpred; simp at hpred
            | cons a as => simp
          have hd : ((c :: rest).drop e.1.length).length ≤ rest.length := by
            simp only [List.length_drop, List.length_cons]
            omega
          exact congrArg _ (ih _ k (by omega) (by omega))

theorem scanSubst_cons_hit (table : List (List Char × List Char)) (c : Char)
    (rest : List Char) (e : List Char × List Char)
    (hf : table.find? (fun e => !e.1.isEmpty && e.1.isPrefixOf (c :: rest)) = some e) :
    scanSubst table (c :: rest) = e.2 ++ scanSubst table ((c :: rest).drop e.1.length) := by
  have hpred := List.find?_some hf
  have hne : 1 ≤ e.1.length := by
    cases hh : e.1 with
    | nil => rw [hh] at hpred; simp at hpred
    | cons a as => simp
  show scanSubstAux table (rest.length + 1) (c :: rest) = _
  simp only [scanSubstAux, hf]
  refine congrArg _ (scanSubstAux_congr table _ _ _ ?_ le_rfl)
  simp only [List.length_drop, List.length_cons]
  omega

theorem scanSubst_cons_miss (table : List (List Char × List Char)) (c : Char)
    (rest : List Char)
    (hf : table.find? (fun e => !e.1.isEmpty && e.1.isPrefixOf (c :: rest)) = none) :
    scanSubst table (c :: rest) = c :: scanSubst table rest := by
  show scanSubstAux table (rest.length + 1) (c :: rest) = _
  simp only [scanSubstAux, hf]
  rfl

theorem isPrefixOf_cons_same (a : Char) (p t : List Char) :
    (a :: p).isPrefixOf (a :: t) = p.isPrefixOf t := by
  simp [List.isPrefixOf]

theorem single_isPrefixOf_iff (a : Char) (l : List Char) :
    [a].isPrefixOf l = true ↔ l.head? = some a := by
  cases l with
  | nil => simp [List.isPrefixOf]
  | cons x xs =>
    constructor
    · intro h
      have hx : ((a == x) && List.isPrefixOf [] xs) = true := h
      simp only [Bool.and_eq_true, beq_iff_eq] at hx
      simp [hx.1]
    · intro h
      have hx : x = a := by simpa using h
      show ((a == x) && List.isPrefixOf [] xs) = true
      simp [hx, List.isPrefixOf]

theorem isPrefixOf_longer (p q t : List Char) (hpq : p <+: q) (h : q.isPrefixOf t = true) :
    p.isPrefixOf t = true := by
  rw [List.isPrefixOf_iff_prefix] at h ⊢
  exact hpq.trans h

theorem tok2_shape (a : Char) (s : List Char) (h : [a, a].isPrefixOf s = true) :
    ∃ t, s = a :: a :: t := by
  cases s with
  | nil => simp [List.isPrefixOf] at h
  | cons x xs =>
    cases xs with
    | nil => simp [List.isPrefixOf] at h
    | cons x2 xs2 =>
      simp only [List.isPrefixOf, Bool.and_eq_true, beq_iff_eq] at h
      exact ⟨xs2, by rw [← h.1, ← h.2.1]⟩

theorem head_ne_isPrefixOf_false (p : Char) (ps : List Char) (c : Char) (X : List Char)
    (hc : (p == c) = false) : (p :: ps).isPrefixOf (c :: X) = false := by
  simp [List.isPrefixOf, hc]

theorem pad2_digits (n : Nat) : ∀ c ∈ pad2 n, c.isDigit = true := by
  unfold pad2
  split
  · intro c hc
    simp only [List.mem_cons, List.mem_singleton] at hc
    rcases hc with rfl | hc
    · decide
    · rcases hc with rfl | hc
      · exact toDigitChar_isDigit _
      · simp at hc
  · exact natDigits_digits n

theorem pad2_ne_nil (n : Nat) : pad2 n ≠ [] := by
  unfold pad2
  split
  · simp
  · exact natDigits_ne_nil n

theorem last2_digits (y : Nat) : ∀ c ∈ last2 (natDigits y), c.isDigit = true := by
  intro c hc
  unfold last2 at hc
  exact natDigits_digits y c (List.drop_subset _ _ hc)

theorem last2_ne_nil (y : Nat) : last2 (natDigits y) ≠ [] := by
  unfold last2
  intro h
  have hl := congrArg List.length h
  simp only [List.length_drop, List.length_nil] at hl
  have := List.length_pos.mpr (natDigits_ne_nil y)
  omega

theorem skip_digits (tok repl : List Char) (htok : tok ≠ [])
    (htokd : ∀ c ∈ tok, c.isDigit = false) (dig : List Char)
    (hdig : ∀ c ∈ dig, c.isDigit = true) (X : List Char) :
    replaceAll tok repl (dig ++ X) = dig ++ replaceAll tok repl X :=
  replaceAll_skip tok repl htok dig X (fun a ha hatok => by
    have h1 := hdig a ha
    have h2 := htokd a hatok
    rw [h1] at h2
    exact Bool.noConfusion h2)

theorem tok2_isPrefixOf_self (a : Char) (X : List Char) :
    [a, a].isPrefixOf (a :: a :: X) = true := by
  simp [List.isPrefixOf]

theorem dateScan_hit_yyyy (y m d : Nat) (c : Char) (rest : List Char)
    (h4 : yyyyTok.isPrefixOf (c :: rest) = true) :
    dateScan y m d (c :: rest) =
      natDigits y ++ dateScan y m d ((c :: rest).drop yyyyTok.length) := by
  simp only [dateScan]
  exact scanSubst_cons_hit _ c rest (yyyyTok, natDigits y)
    (List.find?_cons_of_pos _ (by
      show (!yyyyTok.isEmpty && yyyyTok.isPrefixOf (c :: rest)) = true
      rw [h4]
      decide))

theorem dateScan_hit_yy (y m d : Nat) (c : Char) (rest : List Char)
    (h4 : yyyyTok.isPrefixOf (c :: rest) = false)
    (h2 : yyTok.isPrefixOf (c :: rest) = true) :
    dateScan y m d (c :: rest) =
      last2 (natDigits y) ++ dateScan y m d ((c :: rest).drop yyTok.length) := by
  simp only [dateScan]
  refine scanSubst_cons_hit _ c rest (yyTok, last2 (natDigits y)) ?_
  rw [List.find?_cons_of_neg _ (by
    show ¬((!yyyyTok.isEmpty && yyyyTok.isPrefixOf (c :: rest)) = true)
    rw [h4]
    decide)]
  exact List.find?_cons_of_pos _ (by
    show (!yyTok.isEmpty && yyTok.isPrefixOf (c :: rest)) = true
    rw [h2]
    decide)

theorem dateScan_hit_mm (y m d : Nat) (c : Char) (rest : List Char)
    (h4 : yyyyTok.isPrefixOf (c :: rest) = false)
    (h2 : yyTok.isPrefixOf (c :: rest) = false)
    (hM : mmTok.isPrefixOf (c :: rest) = true) :
    dateScan y m d (c :: rest) = pad2 m ++ dateScan y m d ((c :: rest).drop mmTok.length) := by
  simp only [dateScan]
  refine scanSubst_cons_hit _ c rest (mmTok, pad2 m) ?_
  rw [List.find?_cons_of_neg _ (by
      show ¬((!yyyyTok.isEmpty && yyyyTok.isPrefixOf (c :: rest)) = true)
      rw [h4]
      decide),
    List.find?_cons_of_neg _ (by
      show ¬((!yyTok.isEmpty && yyTok.isPrefixOf (c :: rest)) = true)
      rw [h2]
      decide)]
  exact List.find?_cons_of_pos _ (by
    show (!mmTok.isEmpty && mmTok.isPrefixOf (c :: rest)) = true
    rw [hM]
    decide)

theorem dateScan_hit_dd (y m d : Nat) (c : Char) (rest : List Char)
    (h4 : yyyyTok.isPrefixOf (c :: rest) = false)
    (h2 : yyTok.isPrefixOf (c :: rest) = false)
    (hM : mmTok.isPrefixOf (c :: rest) = false)
    (hD : ddTok.isPrefixOf (c :: rest) = true) :
    dateScan y m d (c :: rest) = pad2 d ++ dateScan y m d ((c :: rest).drop ddTok.length) := by
  simp only [dateScan]
  refine scanSubst_cons_hit _ c rest (ddTok, pad2 d) ?_
  rw [List.find?_cons_of_neg _ (by
      show ¬((!yyyyTok.isEmpty && yyyyTok.isPrefixOf (c :: rest)) = true)
      rw [h4]
      decide),
    List.find?_cons_of_neg _ (by
      show ¬((!yyTok.isEmpty && yyTok.isPrefixOf (c :: rest)) = true)
      rw [h2]
      decide),
    List.find?_cons_of_neg _ (by
      show ¬((!mmTok.isEmpty && mmTok.isPrefixOf (c :: rest)) = true)
      rw [hM]
      decide)]
  exact List.find?_cons_of_pos _ (by
    show (!ddTok.isEmpty && ddTok.isPrefixOf (c :: rest)) = true
    rw [hD]
    decide)

theorem dateScan_miss (y m d : Nat) (c : Char) (rest : List Char)
    (h4 : yyyyTok.isPrefixOf (c :: rest) = false)
    (h2 : yyTok.isPrefixOf (c :: rest) = false)
    (hM : mmTok.isPrefixOf (c :: rest) = false)
    (hD : ddTok.isPrefixOf (c :: rest) = false) :
    dateScan y m d (c :: rest) = c :: dateScan y m d rest := by
  simp only [dateScan]
  refine scanSubst_cons_miss _ c rest ?_
  rw [List.find?_cons_of_neg _ (by
      show ¬((!yyyyTok.isEmpty && yyyyTok.isPrefixOf (c :: rest)) = true)
      rw [h4]
      decide),
    List.find?_cons_of_neg _ (by
      show ¬((!yyTok.isEmpty && yyTok.isPrefixOf (c :: rest)) = true)
      rw [h2]
      decide),
    List.find?_cons_of_neg _ (by
      show ¬((!mmTok.isEmpty && mmTok.isPrefixOf (c :: rest)) = true)
      rw [hM]
      decide),
    List.find?_cons_of_neg _ (by
      show ¬((!ddTok.isEmpty && ddTok.isPrefixOf (c :: rest)) = true)
      rw [hD]
      decide)]
  rfl

theorem dateCore_eq (y m d : Nat) :
    ∀ n : Nat, ∀ fmt : List Char, fmt.length ≤ n →
      replaceAll ddTok (pad2 d) (replaceAll mmTok (pad2 m)
        (replaceAll yyTok (last2 (natDigits y)) (replaceAll yyyyTok (natDigits y) fmt))) =
        dateScan y m d fmt := by
  intro n
  induction n with
  | zero =>
    intro fmt h
    have hf : fmt = [] := List.eq_nil_of_length_eq_zero (Nat.le_zero.mp h)
    subst hf
    rfl
  | succ n ih =>
    intro fmt hlen
    cases fmt with
    | nil => rfl
    | cons c rest =>
      by_cases h4 : yyyyTok.isPrefixOf (c :: rest) = true
      · rw [replaceAll_hit yyyyTok (natDigits y) c rest (by decide) h4,
          skip_digits yyTok (last2 (natDigits y)) (by decide) (by decide)
            (natDigits y) (natDigits_digits y),
          skip_digits mmTok (pad2 m) (by decide) (by decide) (natDigits y) (natDigits_digits y),
          skip_digits ddTok (pad2 d) (by decide) (by decide) (natDigits y) (natDigits_digits y),
          ih ((c :: rest).drop yyyyTok.length) (by
            rw [show yyyyTok.length = 4 from rfl]
            simp only [List.length_drop, List.length_cons]
            simp only [List.length_cons] at hlen
            omega),
          dateScan_hit_yyyy y m d c rest h4]
      · have h4f : yyyyTok.isPrefixOf (c :: rest) = false := Bool.eq_false_iff.mpr h4
        by_cases h2 : yyTok.isPrefixOf (c :: rest) = true
        · obtain ⟨t, ht⟩ := tok2_shape 'Y' (c :: rest) h2
          rw [ht] at hlen h4f ⊢
          have hYYt : List.isPrefixOf ['Y', 'Y'] t = false := by
            have hx := h4f
            rw [show yyyyTok = 'Y' :: 'Y' :: ['Y', 'Y'] from rfl, isPrefixOf_cons_same,
              isPrefixOf_cons_same] at hx
            exact hx
          have hm2 : yyyyTok.isPrefixOf ('Y' :: t) = false := by
            rw [show yyyyTok = 'Y' :: ['Y', 'Y', 'Y'] from rfl, isPrefixOf_cons_same]
            cases hb : List.isPrefixOf ['Y', 'Y', 'Y'] t with
            | false => rfl
            | true =>
              have hlong := isPrefixOf_longer ['Y', 'Y'] ['Y', 'Y', 'Y'] t ⟨['Y'], rfl⟩ hb
              rw [hYYt] at hlong
              exact Bool.noConfusion hlong
          rw [replaceAll_miss yyyyTok (natDigits y) 'Y' ('Y' :: t) h4f,
            replaceAll_miss yyyyTok (natDigits y) 'Y' t hm2,
            replaceAll_hit yyTok (last2 (natDigits y)) 'Y'
              ('Y' :: replaceAll yyyyTok (natDigits y) t) (by decide)
              (tok2_isPrefixOf_self 'Y' (replaceAll yyyyTok (natDigits y) t)),
            show (('Y' :: 'Y' :: replaceAll yyyyTok (natDigits y) t).drop yyTok.length) =
              replaceAll yyyyTok (natDigits y) t from rfl,
            skip_digits mmTok (pad2 m) (by decide) (by decide)
              (last2 (natDigits y)) (last2_digits y),
            skip_digits ddTok (pad2 d) (by decide) (by decide)
              (last2 (natDigits y)) (last2_digits y),
            ih t (by
              simp only [List.length_cons] at hlen
              omega),
            dateScan_hit_yy y m d 'Y' ('Y' :: t) h4f (tok2_isPrefixOf_self 'Y' t)]
          rfl
        · have h2f : yyTok.isPrefixOf (c :: rest) = false := Bool.eq_false_iff.mpr h2
          by_cases hM : mmTok.isPrefixOf (c :: rest) = true
          · obtain ⟨t, ht⟩ := tok2_shape 'M' (c :: rest) hM
            rw [ht] at hlen h4f h2f ⊢
            have m4a : yyyyTok.isPrefixOf ('M' :: 'M' :: t) = false :=
              head_ne_isPrefixOf_false 'Y' ['Y', 'Y', 'Y'] 'M' ('M' :: t) (by decide)
            have m4b : yyyyTok.isPrefixOf ('M' :: t) = false :=
              head_ne_isPrefixOf_false 'Y' ['Y', 'Y', 'Y'] 'M' t (by decide)
            have m2a : ∀ X : List Char, yyTok.isPrefixOf ('M' :: X) = false := fun X =>
              head_ne_isPrefixOf_false 'Y' ['Y'] 'M' X (by decide)
            rw [replaceAll_miss yyyyTok (natDigits y) 'M' ('M' :: t) m4a,
              replaceAll_miss yyyyTok (natDigits y) 'M' t m4b,
              replaceAll_miss yyTok (last2 (natDigits y)) 'M'
                ('M' :: replaceAll yyyyTok (natDigits y) t) (m2a _),
              replaceAll_miss yyTok (last2 (natDigits y)) 'M'
                (replaceAll yyyyTok (natDigits y) t) (m2a _),
              replaceAll_hit mmTok (pad2 m) 'M'
                ('M' :: replaceAll yyTok (last2 (natDigits y))
                  (replaceAll yyyyTok (natDigits y) t)) (by decide)
                (tok2_isPrefixOf_self 'M' _),
              show (('M' :: 'M' :: replaceAll yyTok (last2 (natDigits y))
                  (replaceAll yyyyTok (natDigits y) t)).drop mmTok.length) =
                replaceAll yyTok (last2 (natDigits y)) (replaceAll yyyyTok (natDigits y) t)
                from rfl,
              skip_digits ddTok (pad2 d) (by decide) (by decide) (pad2 m) (pad2_digits m),
              ih t (by
                simp only [List.length_cons] at hlen
                omega),
              dateScan_hit_mm y m d 'M' ('M' :: t) h4f h2f (tok2_isPrefixOf_self 'M' t)]
            rfl
          · have hMf : mmTok.isPrefixOf (c :: rest) = false := Bool.eq_false_iff.mpr hM
            by_cases hD : ddTok.isPrefixOf (c :: rest) = true
            · obtain ⟨t, ht⟩ := tok2_shape 'D' (c :: rest) hD
              rw [ht] at hlen h4f h2f hMf ⊢
              have d4a : yyyyTok.isPrefixOf ('D' :: 'D' :: t) = false :=
                head_ne_isPrefixOf_false 'Y' ['Y', 'Y', 'Y'] 'D' ('D' :: t) (by decide)
              have d4b : yyyyTok.isPrefixOf ('D' :: t) = false :=
                head_ne_isPrefixOf_false 'Y' ['Y', 'Y', 'Y'] 'D' t (by decide)
              have d2a : ∀ X : List Char, yyTok.isPrefixOf ('D' :: X) = false := fun X =>
                head_ne_isPrefixOf_false 'Y' ['Y'] 'D' X (by decide)
              have dMa : ∀ X : List Char, mmTok.isPrefixOf ('D' :: X) = false := fun X =>
                head_ne_isPrefixOf_false 'M' ['M'] 'D' X (by decide)
              rw [replaceAll_miss yyyyTok (natDigits y) 'D' ('D' :: t) d4a,
                replaceAll_miss yyyyTok (natDigits y) 'D' t d4b,
                replaceAll_miss yyTok (last2 (natDigits y)) 'D'
                  ('D' :: replaceAll yyyyTok (natDigits y) t) (d2a _),
                replaceAll_miss yyTok (last2 (natDigits y)) 'D'
                  (replaceAll yyyyTok (natDigits y) t) (d2a _),
                replaceAll_miss mmTok (pad2 m) 'D'
                  ('D' :: replaceAll yyTok (last2 (natDigits y))
                    (replaceAll yyyyTok (natDigits y) t)) (dMa _),
                replaceAll_miss mmTok (pad2 m) 'D'
                  (replaceAll yyTok (last2 (natDigits y))
                    (replaceAll yyyyTok (natDigits y) t)) (dMa _),
                replaceAll_hit ddTok (pad2 d) 'D'
                  ('D' :: replaceAll mmTok (pad2 m) (replaceAll yyTok (last2 (natDigits y))
                    (replaceAll yyyyTok (natDigits y) t))) (by decide)
                  (tok2_isPrefixOf_self 'D' _),
                show (('D' :: 'D' :: replaceAll mmTok (pad2 m)
                    (replaceAll yyTok (last2 (natDigits y))
                      (replaceAll yyyyTok (natDigits y) t))).drop ddTok.length) =
                  replaceAll mmTok (pad2 m) (replaceAll yyTok (last2 (natDigits y))
                    (replaceAll yyyyTok (natDigits y) t)) from rfl,
                ih t (by
                  simp only [List.length_cons] at hlen
                  omega),
                dateScan_hit_dd y m d 'D' ('D' :: t) h4f h2f hMf
                  (tok2_isPrefixOf_self 'D' t)]
              rfl
            · have hDf : ddTok.isPrefixOf (c :: rest) = false := Bool.eq_false_iff.mpr hD
              have e1 : replaceAll yyyyTok (natDigits y) (c :: rest) =
                  c :: replaceAll yyyyTok (natDigits y) rest :=
                replaceAll_miss yyyyTok (natDigits y) c rest h4f
              have e2 : yyTok.isPrefixOf (c :: replaceAll yyyyTok (natDigits y) rest) = false := by
                by_cases hc : c = 'Y'
                · subst hc
                  have hz : List.isPrefixOf ['Y'] rest = false := by
                    have hx := h2f
                    rw [show yyTok = 'Y' :: ['Y'] from rfl, isPrefixOf_cons_same] at hx
                    exact hx
                  apply Bool.eq_false_iff.mpr
                  intro hby
                  rw [show yyTok = 'Y' :: ['Y'] from rfl, isPrefixOf_cons_same] at hby
                  have hh := (single_isPrefixOf_iff 'Y' _).mp hby
                  rcases replaceAll_head yyyyTok (natDigits y) (natDigits_ne_nil y) rest 'Y' hh
                    with hr | hr
                  · have := (single_isPrefixOf_iff 'Y' rest).mpr hr
                    rw [hz] at this
                    exact Bool.noConfusion this
                  · have := natDigits_digits y 'Y' hr
                    exact absurd this (by decide)
                · exact head_ne_isPrefixOf_false 'Y' ['Y'] c _
                    (beq_eq_false_iff_ne.mpr (fun h => hc h.symm))
              have e3 : mmTok.isPrefixOf
                  (c :: replaceAll yyTok (last2 (natDigits y))
                    (replaceAll yyyyTok (natDigits y) rest)) = false := by
                by_cases hc : c = 'M'
                · subst hc
                  have hz : List.isPrefixOf ['M'] rest = false := by
                    have hx := hMf
                    rw [show mmTok = 'M' :: ['M'] from rfl, isPrefixOf_cons_same] at hx
                    exact hx
                  apply Bool.eq_false_iff.mpr
                  intro hby
                  rw [show mmTok = 'M' :: ['M'] from rfl, isPrefixOf_cons_same] at hby
                  have hh := (single_isPrefixOf_iff 'M' _).mp hby
                  rcases replaceAll_head yyTok (last2 (natDigits y)) (last2_ne_nil y) _ 'M' hh
                    with hr | hr
                  · rcases replaceAll_head yyyyTok (natDigits y) (natDigits_ne_nil y) rest 'M' hr
                      with hr2 | hr2
                    · have := (single_isPrefixOf_iff 'M' rest).mpr hr2
                      rw [hz] at this
                      exact Bool.noConfusion this
                    · have := natDigits_digits y 'M' hr2
                      exact absurd this (by decide)
                  · have := last2_digits y 'M' hr
                    exact absurd this (by decide)
                · exact head_ne_isPrefixOf_false 'M' ['M'] c _
                    (beq_eq_false_iff_ne.mpr (fun h => hc h.symm))
              have e4 : ddTok.isPrefixOf
                  (c :: replaceAll mmTok (pad2 m) (replaceAll yyTok (last2 (natDigits y))
                    (replaceAll yyyyTok (natDigits y) rest))) = false := by
                by_cases hc : c = 'D'
                · subst hc
                  have hz : List.isPrefixOf ['D'] rest = false := by
                    have hx := hDf
                    rw [show ddTok = 'D' :: ['D'] from rfl, isPrefixOf_cons_same] at hx
                    exact hx
                  apply Bool.eq_false_iff.mpr
                  intro hby
                  rw [show ddTok = 'D' :: ['D'] from rfl, isPrefixOf_cons_same] at hby
                  have hh := (single_isPrefixOf_iff 'D' _).mp hby
                  rcases replaceAll_head mmTok (pad2 m) (pad2_ne_nil m) _ 'D' hh with hr | hr
                  · rcases replaceAll_head yyTok (last2 (natDigits y)) (last2_ne_nil y) _ 'D' hr
                      with hr2 | hr2
                    · rcases replaceAll_head yyyyTok (natDigits y) (natDigits_ne_nil y)
                        rest 'D' hr2 with hr3 | hr3
                      · have := (single_isPrefixOf_iff 'D' rest).mpr hr3
                        rw [hz] at this
                        exact Bool.noConfusion this
                      · have := natDigits_digits y 'D' hr3
                        exact absurd this (by decide)
                    · have := last2_digits y 'D' hr2
                      exact absurd this (by decide)
                  · have := pad2_digits m 'D' hr
                    exact absurd this (by decide)
                · exact head_ne_isPrefixOf_false 'D' ['D'] c _
                    (beq_eq_false_iff_ne.mpr (fun h => hc h.symm))
              rw [e1,
                replaceAll_miss yyTok (last2 (natDigits y)) c
                  (replaceAll yyyyTok (natDigits y) rest) e2,
                replaceAll_miss mmTok (pad2 m) c
                  (replaceAll yyTok (last2 (natDigits y))
                    (replaceAll yyyyTok (natDigits y) rest)) e3,
                replaceAll_miss ddTok (pad2 d) c
                  (replaceAll mmTok (pad2 m) (replaceAll yyTok (last2 (natDigits y))
                    (replaceAll yyyyTok (natDigits y) rest))) e4,
                ih rest (by
                  simp only [List.length_cons] at hlen
                  omega),
                dateScan_miss y m d c rest h4f h2f hMf hDf]

theorem timeScan_hit_hh (hv mv sv : Nat) (c : Char) (rest : List Char)
    (hH : hhTok.isPrefixOf (c :: rest) = true) :
    timeScan hv mv sv (c :: rest) = pad2 hv ++ timeScan hv mv sv ((c :: rest).drop hhTok.length) := by
  simp only [timeScan]
  exact scanSubst_cons_hit _ c rest (hhTok, pad2 hv)
    (List.find?_cons_of_pos _ (by
      show (!hhTok.isEmpty && hhTok.isPrefixOf (c :: rest)) = true
      rw [hH]
      decide))

theorem timeScan_hit_mi (hv mv sv : Nat) (c : Char) (rest : List Char)
    (hH : hhTok.isPrefixOf (c :: rest) = false)
    (hm : miTok.isPrefixOf (c :: rest) = true) :
    timeScan hv mv sv (c :: rest) = pad2 mv ++ timeScan hv mv sv ((c :: rest).drop miTok.length) := by
  simp only [timeScan]
  refine scanSubst_cons_hit _ c rest (miTok, pad2 mv) ?_
  rw [List.find?_cons_of_neg _ (by
    show ¬((!hhTok.isEmpty && hhTok.isPrefixOf (c :: rest)) = true)
    rw [hH]
    decide)]
  exact List.find?_cons_of_pos _ (by
    show (!miTok.isEmpty && miTok.isPrefixOf (c :: rest)) = true
    rw [hm]
    decide)

theorem timeScan_hit_ss (hv mv sv : Nat) (c : Char) (rest : List Char)
    (hH : hhTok.isPrefixOf (c :: rest) = false)
    (hm : miTok.isPrefixOf (c :: rest) = false)
    (hs : ssTok.isPrefixOf (c :: rest) = true) :
    timeScan hv mv sv (c :: rest) = pad2 sv ++ timeScan hv mv sv ((c :: rest).drop ssTok.length) := by
  simp only [timeScan]
  refine scanSubst_cons_hit _ c rest (ssTok, pad2 sv) ?_
  rw [List.find?_cons_of_neg _ (by
      show ¬((!hhTok.isEmpty && hhTok.isPrefixOf (c :: rest)) = true)
      rw [hH]
      decide),
    List.find?_cons_of_neg _ (by
      show ¬((!miTok.isEmpty && miTok.isPrefixOf (c :: rest)) = true)
      rw [hm]
      decide)]
  exact List.find?_cons_of_pos _ (by
    show (!ssTok.isEmpty && ssTok.isPrefixOf (c :: rest)) = true
    rw [hs]
    decide)

theorem timeScan_miss (hv mv sv : Nat) (c : Char) (rest : List Char)
    (hH : hhTok.isPrefixOf (c :: rest) = false)
    (hm : miTok.isPrefixOf (c :: rest) = false)
    (hs : ssTok.isPrefixOf (c :: rest) = false) :
    timeScan hv mv sv (c :: rest) = c :: timeScan hv mv sv rest := by
  simp only [timeScan]
  refine scanSubst_cons_miss _ c rest ?_
  rw [List.find?_cons_of_neg _ (by
      show ¬((!hhTok.isEmpty && hhTok.isPrefixOf (c :: rest)) = true)
      rw [hH]
      decide),
    List.find?_cons_of_neg _ (by
      show ¬((!miTok.isEmpty && miTok.isPrefixOf (c :: rest)) = true)
      rw [hm]
      decide),
    List.find?_cons_of_neg _ (by
      show ¬((!ssTok.isEmpty && ssTok.isPrefixOf (c :: rest)) = true)
      rw [hs]
      decide)]
  rfl

theorem timeCore_eq (hv mv sv : Nat) :
    ∀ n : Nat, ∀ fmt : List Char, fmt.length ≤ n →
      replaceAll ssTok (pad2 sv) (replaceAll miTok (pad2 mv)
        (replaceAll hhTok (pad2 hv) fmt)) = timeScan hv mv sv fmt := by
  intro n
  induction n with
  | zero =>
    intro fmt h
    have hf : fmt = [] := List.eq_nil_of_length_eq_zero (Nat.le_zero.mp h)
    subst hf
    rfl
  | succ n ih =>
    intro fmt hlen
    cases fmt with
    | nil => rfl
    | cons c rest =>
      by_cases hH : hhTok.isPrefixOf (c :: rest) = true
      · rw [replaceAll_hit hhTok (pad2 hv) c rest (by decide) hH,
          skip_digits miTok (pad2 mv) (by decide) (by decide) (pad2 hv) (pad2_digits hv),
          skip_digits ssTok (pad2 sv) (by decide) (by decide) (pad2 hv) (pad2_digits hv),
          ih ((c :: rest).drop hhTok.length) (by
            rw [show hhTok.length = 2 from rfl]
            simp only [List.length_drop, List.length_cons]
            simp only [List.length_cons] at hlen
            omega),
          timeScan_hit_hh hv mv sv c rest hH]
      · have hHf : hhTok.isPrefixOf (c :: rest) = false := Bool.eq_false_iff.mpr hH
        by_cases hm : miTok.isPrefixOf (c :: rest) = true
        · obtain ⟨t, ht⟩ := tok2_shape 'm' (c :: rest) hm
          rw [ht] at hlen hHf ⊢
          have mH1 : hhTok.isPrefixOf ('m' :: 'm' :: t) = false :=
            head_ne_isPrefixOf_false 'H' ['H'] 'm' ('m' :: t) (by decide)
          have mH2 : hhTok.isPrefixOf ('m' :: t) = false :=
            head_ne_isPrefixOf_false 'H' ['H'] 'm' t (by decide)
          rw [replaceAll_miss hhTok (pad2 hv) 'm' ('m' :: t) mH1,
            replaceAll_miss hhTok (pad2 hv) 'm' t mH2,
            replaceAll_hit miTok (pad2 mv) 'm' ('m' :: replaceAll hhTok (pad2 hv) t)
              (by decide) (tok2_isPrefixOf_self 'm' _),
            show (('m' :: 'm' :: replaceAll hhTok (pad2 hv) t).drop miTok.length) =
              replaceAll hhTok (pad2 hv) t from rfl,
            skip_digits ssTok (pad2 sv) (by decide) (by decide) (pad2 mv) (pad2_digits mv),
            ih t (by
              simp only [List.length_cons] at hlen
              omega),
            timeScan_hit_mi hv mv sv 'm' ('m' :: t) hHf (tok2_isPrefixOf_self 'm' t)]
          rfl
        · have hmf : miTok.isPrefixOf (c :: rest) = false := Bool.eq_false_iff.mpr hm
          by_cases hs : ssTok.isPrefixOf (c :: rest) = true
          · obtain ⟨t, ht⟩ := tok2_shape 's' (c :: rest) hs
            rw [ht] at hlen hHf hmf ⊢
            have sH1 : hhTok.isPrefixOf ('s' :: 's' :: t) = false :=
              head_ne_isPrefixOf_false 'H' ['H'] 's' ('s' :: t) (by decide)
            have sH2 : hhTok.isPrefixOf ('s' :: t) = false :=
              head_ne_isPrefixOf_false 'H' ['H'] 's' t (by decide)
            have sm1 : ∀ X : List Char, miTok.isPrefixOf ('s' :: X) = false := fun X =>
              head_ne_isPrefixOf_false 'm' ['m'] 's' X (by decide)
            rw [replaceAll_miss hhTok (pad2 hv) 's' ('s' :: t) sH1,
              replaceAll_miss hhTok (pad2 hv) 's' t sH2,
              replaceAll_miss miTok (pad2 mv) 's' ('s' :: replaceAll hhTok (pad2 hv) t) (sm1 _),
              replaceAll_miss miTok (pad2 mv) 's' (replaceAll hhTok (pad2 hv) t) (sm1 _),
              replaceAll_hit ssTok (pad2 sv) 's'
                ('s' :: replaceAll miTok (pad2 mv) (replaceAll hhTok (pad2 hv) t))
                (by decide) (tok2_isPrefixOf_self 's' _),
              show (('s' :: 's' :: replaceAll miTok (pad2 mv)
                  (replaceAll hhTok (pad2 hv) t)).drop ssTok.length) =
                replaceAll miTok (pad2 mv) (replaceAll hhTok (pad2 hv) t) from rfl,
              ih t (by
                simp only [List.length_cons] at hlen
                omega),
              timeScan_hit_ss hv mv sv 's' ('s' :: t) hHf hmf (tok2_isPrefixOf_self 's' t)]
            rfl
          · have hsf : ssTok.isPrefixOf (c :: rest) = false := Bool.eq_false_iff.mpr hs
            have e1 : replaceAll hhTok (pad2 hv) (c :: rest) =
                c :: replaceAll hhTok (pad2 hv) rest :=
              replaceAll_miss hhTok (pad2 hv) c rest hHf
            have e2 : miTok.isPrefixOf (c :: replaceAll hhTok (pad2 hv) rest) = false := by
              by_cases hc : c = 'm'
              · subst hc
                have hz : List.isPrefixOf ['m'] rest = false := by
                  have hx := hmf
                  rw [show miTok = 'm' :: ['m'] from rfl, isPrefixOf_cons_same] at hx
                  exact hx
                apply Bool.eq_false_iff.mpr
                intro hby
                rw [show miTok = 'm' :: ['m'] from rfl, isPrefixOf_cons_same] at hby
                have hh := (single_isPrefixOf_iff 'm' _).mp hby
                rcases replaceAll_head hhTok (pad2 hv) (pad2_ne_nil hv) rest 'm' hh with hr | hr
                · have := (single_isPrefixOf_iff 'm' rest).mpr hr
                  rw [hz] at this
                  exact Bool.noConfusion this
                · have := pad2_digits hv 'm' hr
                  exact absurd this (by decide)
              · exact head_ne_isPrefixOf_false 'm' ['m'] c _
                  (beq_eq_false_iff_ne.mpr (fun h => hc h.symm))
            have e3 : ssTok.isPrefixOf
                (c :: replaceAll miTok (pad2 mv) (replaceAll hhTok (pad2 hv) rest)) = false := by
              by_cases hc : c = 's'
              · subst hc
                have hz : List.isPrefixOf ['s'] rest = false := by
                  have hx := hsf
                  rw [show ssTok = 's' :: ['s'] from rfl, isPrefixOf_cons_same] at hx
                  exact hx
                apply Bool.eq_false_iff.mpr
                intro hby
                rw [show ssTok = 's' :: ['s'] from rfl, isPrefixOf_cons_same] at hby
                have hh := (single_isPrefixOf_iff 's' _).mp hby
                rcases replaceAll_head miTok (pad2 mv) (pad2_ne_nil mv) _ 's' hh with hr | hr
                · rcases replaceAll_head hhTok (pad2 hv) (pad2_ne_nil hv) rest 's' hr
                    with hr2 | hr2
                  · have := (single_isPrefixOf_iff 's' rest).mpr hr2
                    rw [hz] at this
                    exact Bool.noConfusion this
                  · have := pad2_digits hv 's' hr2
                    exact absurd this (by decide)
                · have := pad2_digits mv 's' hr
                  exact absurd this (by decide)
              · exact head_ne_isPrefixOf_false 's' ['s'] c _
                  (beq_eq_false_iff_ne.mpr (fun h => hc h.symm))
            rw [e1,
              replaceAll_miss miTok (pad2 mv) c (replaceAll hhTok (pad2 hv) rest) e2,
              replaceAll_miss ssTok (pad2 sv) c
                (replaceAll miTok (pad2 mv) (replaceAll hhTok (pad2 hv) rest)) e3,
              ih rest (by
                simp only [List.length_cons] at hlen
                omega),
              timeScan_miss hv mv sv c rest hHf hmf hsf]

/-- Claim C7: the date formatter substitutes YYYY with the year, YY with its
last two digits, MM and DD with the zero-padded month and day, passes
non-token characters through unchanged, and never re-substitutes inside
already-substituted text: the sequential str.replace loop of the source
coincides, for every format string, with dateScan, the disjoint-token-span
single pass modelled from the specification, because every replacement value
consists of digits while every token consists of non-digit letters; the same
holds for the time formatter's HH, mm, ss tokens via timeScan. -/
theorem date_time_disjoint_substitution :
    (∀ (y m d : Nat) (fmt : List Char), dateSeq y m d fmt = dateScan y m d fmt)
    ∧ (∀ (hv mv sv : Nat) (fmt : List Char), timeSeq hv mv sv fmt = timeScan hv mv sv fmt) := by
  constructor
  · intro y m d fmt
    simp only [dateSeq]
    rw [replaceAll_self ['日'] (by decide), replaceAll_self ['月'] (by decide),
      replaceAll_self ['年'] (by decide)]
    exact dateCore_eq y m d fmt.length fmt le_rfl
  · intro hv mv sv fmt
    simp only [timeSeq]
    exact timeCore_eq hv mv sv fmt.length fmt le_rfl

end RoadLocalize
